import Mathlib

/-!
objdiff / objcommon (ksplice): a shallow embedding.

The development follows `src/objcommon.c` and `src/objdiff.c`.

Conventions of the embedding:

* `bfd_vma`, `bfd_size_type` and `size_t` are 64-bit unsigned integers: they are
  natural numbers, and every operation that can leave the range is followed by
  `% vma_mod`.
* A byte buffer (`contents.data`, `contents.size`) is a `List Nat`; its length is
  the `size` field.
* Pointers into the BFD object graph are replaced by the data the code reads
  through them: a symbol carries the name and bytes of its section.
* `DIE`, a failing `assert` and `abort` are the value `none`; so is a `memcpy`
  whose range leaves its buffer. `malloc` and `realloc` are taken to succeed.
* Where two pointers to sections may be equal (`supersect_move`), the sections
  live in a store indexed by pointer.
* `printf` appends to a `String`; a callback `s_fn` that is handed to a pass is
  replaced by the list of sections the pass calls it on, in call order.
-/

namespace Ksplice

/-! ## Data model -/

/-- Number of values of a `bfd_vma` (64-bit unsigned). -/
def vma_mod : Nat := 2 ^ 64

/-- The enumeration `enum complain_overflow` of BFD. -/
inductive complain_overflow where
  | complain_overflow_dont
  | complain_overflow_bitfield
  | complain_overflow_signed
  | complain_overflow_unsigned
  deriving DecidableEq, Repr

open complain_overflow

/-- The encoding descriptor `reloc_howto_type`, as far as the code reads it.
`size` is the value of `bfd_get_reloc_size (howto)`, in bytes. -/
structure reloc_howto_type where
  size : Nat
  rightshift : Nat
  bitpos : Nat
  complain_on_overflow : complain_overflow
  pc_relative : Bool
  pcrel_offset : Bool
  src_mask : Nat
  dst_mask : Nat
  deriving DecidableEq, Repr

/-- The section a symbol is defined in (`sym->section`), as far as the code
reads it: its name, the bytes `fetch_supersect` materialises for it, and the
answers of `bfd_is_abs_section` and `bfd_is_const_section`. -/
structure symsect where
  name : String
  contents : List Nat
  is_abs : Bool
  is_const : Bool
  deriving DecidableEq, Repr

/-- The BFD symbol `asymbol`. -/
structure asymbol where
  name : String
  sect : symsect
  value : Nat
  deriving DecidableEq, Repr

/-- The relocation entry `arelent`; `sym` is `*reloc->sym_ptr_ptr`. -/
structure arelent where
  sym : asymbol
  address : Nat
  addend : Nat
  howto : reloc_howto_type
  deriving DecidableEq, Repr

/-- The section content model `struct supersect`. `big_endian` is the byte
order of `ss->parent->abfd`. -/
structure supersect where
  big_endian : Bool
  name : String
  flags : Nat
  contents : List Nat
  alignment : Int
  relocs : List arelent
  new_relocs : List arelent
  deriving DecidableEq, Repr

/-- A raw section `asection` of an object file, with what the external reader
and naming service say about it: `label` is
`label_lookup (sbfd, sect->symbol)`, `special` is `is_special (sect)`,
`contents` is what `bfd_get_section_contents` reads and `relocs` is what
`bfd_canonicalize_reloc` returns. -/
structure asection where
  name : String
  label : String
  special : Bool
  flags : Nat
  alignment : Int
  contents : List Nat
  relocs : List arelent
  deriving DecidableEq, Repr

/-- The object context `struct superbfd`: byte order of the file and the
section list `abfd->sections`, in file order. -/
structure superbfd where
  big_endian : Bool
  sections : List asection
  deriving DecidableEq, Repr

/-! ## External collaborators -/

/-- Modelled from the spec: `starts_with (str, prefix)` of `objcommon.h`, true
when the name begins with the given prefix. -/
def starts_with (str pre : String) : Bool :=
  pre.toList.isPrefixOf str.toList

/-- Modelled from the spec: `ends_with (str, suffix)` of `objcommon.h`, true
when the name ends with the given suffix. -/
def ends_with (str suf : String) : Bool :=
  suf.toList.isSuffixOf str.toList

/-- Little-endian value of the first `n` bytes of a buffer; a byte past the end
of the buffer reads as zero. -/
def bfd_getl : Nat → List Nat → Nat
  | 0, _ => 0
  | n + 1, bs => bs.headD 0 % 256 + 256 * bfd_getl n bs.tail

/-- Big-endian value of the first `n` bytes of a buffer, continuing from `acc`;
a byte past the end of the buffer reads as zero. -/
def bfd_getb : Nat → Nat → List Nat → Nat
  | 0, acc, _ => acc
  | n + 1, acc, bs => bfd_getb n (acc * 256 + bs.headD 0 % 256) bs.tail

/-- Modelled from the spec: the external reader's primitive `bfd_get (bits,
abfd, ptr)` that reads a file-endianness integer of the given bit width at
offset `addr` of a buffer, as a `bfd_vma`. -/
def bfd_get (bits : Nat) (big_endian : Bool) (data : List Nat) (addr : Nat) : Nat :=
  (if big_endian then bfd_getb (bits / 8) 0 (data.drop addr)
   else bfd_getl (bits / 8) (data.drop addr)) % vma_mod

/-- Bitwise complement of a `bfd_vma`. -/
def vma_not (x : Nat) : Nat := vma_mod - 1 - x % vma_mod

/-- Unary minus of a `bfd_vma`. -/
def vma_neg (x : Nat) : Nat := (vma_mod - x % vma_mod) % vma_mod

/-- The value of a `bfd_vma` read as a 64-bit two's-complement integer. -/
def vma_to_int (x : Nat) : Int :=
  if x % vma_mod < 2 ^ 63 then ((x % vma_mod : Nat) : Int)
  else ((x % vma_mod : Nat) : Int) - 2 ^ 64

/-- The call `fetch_supersect (sbfd, sect)` of `objcommon.c`: the section
content model materialised from the file. -/
def fetch_supersect (sbfd : superbfd) (sect : asection) : supersect :=
  { big_endian := sbfd.big_endian
    name := sect.name
    flags := sect.flags
    contents := sect.contents
    alignment := sect.alignment
    relocs := sect.relocs
    new_relocs := [] }

/-! ## objcommon.c: the relocation resolver -/

/-- The function `get_reloc_offset` of `objcommon.c`; `none` is `DIE`. -/
def get_reloc_offset (ss : supersect) (reloc : arelent) (adjust_pc : Bool) : Option Nat :=
  let size := reloc.howto.size
  let x := bfd_get (size * 8) ss.big_endian ss.contents reloc.address
  let x := x &&& reloc.howto.src_mask
  let x := x >>> reloc.howto.bitpos
  let signbit := (reloc.howto.dst_mask % vma_mod) >>> reloc.howto.bitpos
  let signbit := signbit &&& vma_not (signbit >>> 1)
  let ext : Option Nat :=
    match reloc.howto.complain_on_overflow with
    | complain_overflow_signed => some (x ||| vma_neg (x &&& signbit))
    | complain_overflow_bitfield => some (x ||| vma_neg (x &&& signbit))
    | complain_overflow_unsigned => some x
    | complain_overflow_dont => none
  match ext with
  | none => none
  | some x =>
    let x := (x <<< reloc.howto.rightshift) % vma_mod
    let add := reloc.addend % vma_mod
    let add :=
      if reloc.howto.pc_relative then
        let add := if !reloc.howto.pcrel_offset then (add + reloc.address) % vma_mod else add
        if adjust_pc then (add + size) % vma_mod else add
      else add
    some ((x + add) % vma_mod)

/-! ## objdiff.c: the diff engine -/

/-- Modelled from the spec: the external reader's `findSectionByName`
(`bfd_get_section_by_name`): the first section of the object with that name. -/
def bfd_get_section_by_name (sbfd : superbfd) (name : String) : Option asection :=
  sbfd.sections.find? (fun s => s.name == name)

/-- The read `strcmp` makes at offset `pos` of a buffer is defined: the position
lies inside the buffer and a NUL byte stands at it or after it, inside the
buffer. -/
def c_string_ok (data : List Nat) (pos : Nat) : Bool :=
  decide (pos < data.length) && (data.drop pos).contains 0

/-- The NUL-terminated byte string that starts at offset `pos` of a buffer: what
`strcmp` reads there when `c_string_ok` holds. When it does not hold the read
is undefined in C, and the bytes given here (up to the end of the buffer, none
past it) describe no behaviour of the program. -/
def c_string (data : List Nat) (pos : Nat) : List Nat :=
  (data.drop pos).takeWhile (fun b => b != 0)

/-- The test `memcmp (a, b, n) == 0`. -/
def memcmp_eq (a b : List Nat) (n : Nat) : Bool :=
  a.take n == b.take n

/-- Body of the loop of `relocs_equal` after the two offsets are decoded:
`false` when the body executes `return false`, `true` when it falls through to
the next iteration. `fetch_supersect` on `sym->section` yields the name and the
bytes carried by the symbol. -/
def relocs_equal_at (old_sym new_sym : asymbol) (old_offset new_offset : Nat) : Bool :=
  let ro_old_ss := old_sym.sect
  let ro_new_ss := new_sym.sect
  if ro_old_ss.name ≠ ro_new_ss.name then false
  else if !starts_with ro_old_ss.name ".rodata" then
    if (old_sym.value + old_offset) % vma_mod ≠ (new_sym.value + new_offset) % vma_mod then false
    else true
  else if starts_with ro_old_ss.name ".rodata.str" &&
      !(decide (old_offset ≥ ro_old_ss.contents.length) ||
        decide (new_offset ≥ ro_new_ss.contents.length)) then
    if c_string ro_old_ss.contents ((old_sym.value + old_offset) % vma_mod) ≠
        c_string ro_new_ss.contents ((new_sym.value + new_offset) % vma_mod) then false
    else true
  else if ro_old_ss.contents.length ≠ ro_new_ss.contents.length then false
  else if !memcmp_eq ro_old_ss.contents ro_new_ss.contents ro_old_ss.contents.length then false
  else true

/-- The loop `for (i = 0; i < old_ss->relocs.size; i++)` of `relocs_equal`, over
the two relocation lists from index `i` on; `none` when a decode aborts. -/
def relocs_equal_loop (old_ss new_ss : supersect) : List arelent → List arelent → Option Bool
  | o :: os, n :: ns =>
    match get_reloc_offset old_ss o true, get_reloc_offset new_ss n true with
    | some old_offset, some new_offset =>
      if relocs_equal_at o.sym n.sym old_offset new_offset then
        relocs_equal_loop old_ss new_ss os ns
      else some false
    | _, _ => none
  | _, _ => some true

/-- The function `relocs_equal` of `objdiff.c`; `none` when a decode aborts. -/
def relocs_equal (oldsbfd : superbfd) (oldp : asection) (newsbfd : superbfd)
    (newp : asection) : Option Bool :=
  let old_ss := fetch_supersect oldsbfd oldp
  let new_ss := fetch_supersect newsbfd newp
  if old_ss.relocs.length ≠ new_ss.relocs.length then some false
  else relocs_equal_loop old_ss new_ss old_ss.relocs new_ss.relocs

/-- What a pass with a callback did: the sections the callback was invoked on,
in call order, and whether the process aborted before the pass ended. -/
structure pass_result where
  called : List asection
  aborted : Bool
  deriving DecidableEq, Repr

/-- The loop of `foreach_nonmatching` over the remaining sections of the new
object. -/
def foreach_nonmatching_loop (oldsbfd newsbfd : superbfd) : List asection → pass_result
  | [] => ⟨[], false⟩
  | newp :: rest =>
    if !starts_with newp.name ".text" then foreach_nonmatching_loop oldsbfd newsbfd rest
    else
      let new_ss := fetch_supersect newsbfd newp
      match bfd_get_section_by_name oldsbfd newp.name with
      | none => foreach_nonmatching_loop oldsbfd newsbfd rest
      | some oldp =>
        let old_ss := fetch_supersect oldsbfd oldp
        if decide (new_ss.contents.length = old_ss.contents.length) &&
            memcmp_eq new_ss.contents old_ss.contents new_ss.contents.length then
          match relocs_equal oldsbfd oldp newsbfd newp with
          | none => ⟨[], true⟩
          | some true => foreach_nonmatching_loop oldsbfd newsbfd rest
          | some false =>
            let r := foreach_nonmatching_loop oldsbfd newsbfd rest
            ⟨newp :: r.called, r.aborted⟩
        else
          let r := foreach_nonmatching_loop oldsbfd newsbfd rest
          ⟨newp :: r.called, r.aborted⟩

/-- The function `foreach_nonmatching` of `objdiff.c`. -/
def foreach_nonmatching (oldsbfd newsbfd : superbfd) : pass_result :=
  foreach_nonmatching_loop oldsbfd newsbfd newsbfd.sections

/-- The inner loop of `foreach_new_section` over the remaining sections of the
old object: the value of `oldsect` when the loop is left (`none` is `NULL`). -/
def foreach_new_section_inner (oldsbfd : superbfd) (newsect : asection) :
    List asection → Option asection
  | [] => none
  | oldsect :: rest =>
    if newsect.name ≠ oldsect.name && newsect.label ≠ oldsect.label then
      foreach_new_section_inner oldsbfd newsect rest
    else if !starts_with newsect.name ".rodata" then some oldsect
    else
      let new_ss := fetch_supersect oldsbfd oldsect
      let old_ss := fetch_supersect oldsbfd oldsect
      if decide (old_ss.contents.length ≠ new_ss.contents.length) ||
          !memcmp_eq old_ss.contents new_ss.contents old_ss.contents.length then none
      else some oldsect

/-- The outer loop of `foreach_new_section` over the remaining sections of the
new object: the sections the callback is invoked on. -/
def foreach_new_section_loop (oldsbfd newsbfd : superbfd) : List asection → List asection
  | [] => []
  | newsect :: rest =>
    if starts_with newsect.name ".rodata.str" || newsect.special then
      foreach_new_section_loop oldsbfd newsbfd rest
    else
      match foreach_new_section_inner oldsbfd newsect oldsbfd.sections with
      | none => newsect :: foreach_new_section_loop oldsbfd newsbfd rest
      | some _ => foreach_new_section_loop oldsbfd newsbfd rest

/-- The function `foreach_new_section` of `objdiff.c`. -/
def foreach_new_section (oldsbfd newsbfd : superbfd) : List asection :=
  foreach_new_section_loop oldsbfd newsbfd newsbfd.sections

/-- The loop of `print_section_symbol_renames` over the remaining sections of
the new object: the text printed, the closing newline included. -/
def print_section_symbol_renames_loop (oldsbfd newsbfd : superbfd) : List asection → String
  | [] => "\n"
  | newp :: rest =>
    if !starts_with newp.name ".text" && !starts_with newp.name ".data" &&
        !starts_with newp.name ".rodata" && !starts_with newp.name ".bss" then
      print_section_symbol_renames_loop oldsbfd newsbfd rest
    else
      match bfd_get_section_by_name oldsbfd newp.name with
      | none => print_section_symbol_renames_loop oldsbfd newsbfd rest
      | some oldp =>
        let old_label := oldp.label
        let new_label := newp.label
        if old_label = new_label then print_section_symbol_renames_loop oldsbfd newsbfd rest
        else new_label ++ " " ++ old_label ++ ";" ++
          print_section_symbol_renames_loop oldsbfd newsbfd rest

/-- The function `print_section_symbol_renames` of `objdiff.c`. -/
def print_section_symbol_renames (oldsbfd newsbfd : superbfd) : String :=
  print_section_symbol_renames_loop oldsbfd newsbfd newsbfd.sections

/-! ## objcommon.c and objdiff.c: reading the export tables -/

/-- The absolute pseudo-section `bfd_abs_section_ptr` of BFD. -/
def bfd_abs_section : symsect :=
  { name := "*ABS*", contents := [], is_abs := true, is_const := true }

/-- The symbol `*bfd_abs_section_ptr->symbol_ptr_ptr`. -/
def bfd_abs_symbol : asymbol :=
  { name := "*ABS*", sect := bfd_abs_section, value := 0 }

/-- The function `read_reloc` of `objcommon.c`, called with `symp != NULL`;
`addr` is the offset `addr_offset (ss, addr)` of the field. The result is the
value returned and the symbol stored in `*symp`; `none` is `DIE`. -/
def read_reloc (ss : supersect) (addr : Nat) (size : Nat) : Option (Nat × asymbol) :=
  let val := bfd_get (size * 8) ss.big_endian ss.contents addr
  match ss.relocs.find? (fun reloc => reloc.address == addr) with
  | some reloc =>
    match get_reloc_offset ss reloc false with
    | some off => some (off, reloc.sym)
    | none => none
  | none => some (val, bfd_abs_symbol)

/-- Modelled from the spec: `sizeof (void *)` on the host, 8 bytes. -/
def sizeof_pointer : Nat := 8

/-- Modelled from the spec: `sizeof (struct kernel_symbol)`, the fixed size of
an export record that holds a value and a name pointer, 16 bytes. -/
def sizeof_kernel_symbol : Nat := 16

/-- Modelled from the spec: offset of the field `name` in
`struct kernel_symbol`, after the field `value`. -/
def offsetof_name : Nat := 8

/-- The function `read_pointer` of `objcommon.c`, called with
`data_ssp == NULL`: `none` is `DIE`, `some none` is the result `NULL`, and
`some (some (s, pos))` is the pointer `pos` bytes into the contents of `s`. -/
def read_pointer (ss : supersect) (addr : Nat) : Option (Option (symsect × Nat)) :=
  match read_reloc ss addr sizeof_pointer with
  | none => none
  | some (offset, sym) =>
    let data_ss := sym.sect
    if sym.sect.is_abs && decide ((sym.value + offset) % vma_mod = 0) then some none
    else if sym.sect.is_const then some none
    else some (some (data_ss, (sym.value + offset) % vma_mod))

/-- The function `read_string` of `objcommon.c`: the bytes of the C string the
pointer designates. -/
def read_string (ss : supersect) (addr : Nat) : Option (Option (List Nat)) :=
  match read_pointer ss addr with
  | none => none
  | some none => some none
  | some (some (s, pos)) => some (some (c_string s.contents pos))

/-- The record `struct export` of `objdiff.c`: `name` is the C string
`exp->name`; `sect` is the section `exp->sect` points to and `sect_id` its
position in the section list, which stands for the identity of the pointer. -/
structure export_sym where
  name : String
  sect_id : Nat
  sect : asection
  deriving DecidableEq, Repr

/-- The text of a C string given by its bytes. -/
def string_of_bytes (bs : List Nat) : String :=
  String.mk (bs.map Char.ofNat)

/-- The inner loop of `get_export_syms` over the records of one section, the
record pointer `sym` being at the offsets listed. A name that does not resolve
(`read_string` returns `NULL`) ends the run like an abort: such a name is passed
to `strcmp` or `printf` by `compare_exported_symbols`. -/
def get_export_syms_records (ss : supersect) (sect_id : Nat) (sect : asection) :
    List Nat → Option (List export_sym)
  | [] => some []
  | sym :: rest =>
    match read_string ss (sym + offsetof_name) with
    | some (some bs) =>
      match get_export_syms_records ss sect_id sect rest with
      | some es => some (⟨string_of_bytes bs, sect_id, sect⟩ :: es)
      | none => none
    | _ => none

/-- The offsets `0, 16, 32, ...` below `size` that the record pointer of
`get_export_syms` takes. -/
def record_offsets (size : Nat) : List Nat :=
  (List.range ((size + (sizeof_kernel_symbol - 1)) / sizeof_kernel_symbol)).map
    (fun k => k * sizeof_kernel_symbol)

/-- The outer loop of `get_export_syms` over the remaining sections, the first
of which has position `sect_id`; `none` when an assertion fails or `DIE` is
reached. -/
def get_export_syms_loop (sbfd : superbfd) : Nat → List asection → Option (List export_sym)
  | _, [] => some []
  | sect_id, sect :: rest =>
    if !starts_with sect.name "__ksymtab" || ends_with sect.name "_strings" then
      get_export_syms_loop sbfd (sect_id + 1) rest
    else
      let ss := fetch_supersect sbfd sect
      if ss.contents.length * 2 ≠ ss.relocs.length * sizeof_kernel_symbol then none
      else
        match get_export_syms_records ss sect_id sect (record_offsets ss.contents.length) with
        | none => none
        | some es =>
          match get_export_syms_loop sbfd (sect_id + 1) rest with
          | none => none
          | some es2 => some (es ++ es2)

/-- The function `get_export_syms` of `objdiff.c`. -/
def get_export_syms (sbfd : superbfd) : Option (List export_sym) :=
  get_export_syms_loop sbfd 0 sbfd.sections

/-- The loop of `compare_exported_symbols` over the remaining new exports;
`last_sect` is the section of the last header printed (`none` is `NULL`). The
result is the text printed. -/
def compare_exports_loop (old_exports : List export_sym) (addstr : String) :
    Option Nat → List export_sym → String
  | _, [] => ""
  | last_sect, new :: rest =>
    let found := old_exports.any
      (fun old => new.name == old.name && new.sect.name == old.sect.name)
    if !found then
      if last_sect ≠ some new.sect_id then
        "\n" ++ addstr ++ new.sect.name ++ (" " ++ new.name ++
          compare_exports_loop old_exports addstr (some new.sect_id) rest)
      else
        " " ++ new.name ++ compare_exports_loop old_exports addstr last_sect rest
    else compare_exports_loop old_exports addstr last_sect rest

/-- The body of `compare_exported_symbols` once both export lists are built. -/
def compare_exports (old_exports new_exports : List export_sym) (addstr : String) : String :=
  compare_exports_loop old_exports addstr none new_exports

/-- The function `compare_exported_symbols` of `objdiff.c`: the text printed,
`none` when reading an export table aborts. -/
def compare_exported_symbols (oldsbfd newsbfd : superbfd) (addstr : String) : Option String :=
  match get_export_syms newsbfd with
  | none => none
  | some new_exports =>
    match get_export_syms oldsbfd with
    | none => none
    | some old_exports => some (compare_exports old_exports new_exports addstr)

/-! ## objcommon.c: the growable buffer and the section content model -/

/-- The function `vec_do_reserve` of `objcommon.c`: the value of `*mem_size`
after the call. `realloc` is taken to succeed; it keeps the bytes stored. -/
def vec_do_reserve (mem_size new_size : Nat) : Nat :=
  if decide (new_size > mem_size) || decide (new_size * 2 % vma_mod < mem_size) then
    let new_size :=
      if new_size < mem_size * 2 % vma_mod then mem_size * 2 % vma_mod else new_size
    new_size
  else mem_size

/-- A store of section content models: the struct a pointer
`struct supersect *` designates. -/
def ss_store : Type := Nat → supersect

/-- The function `supersect_move` of `objcommon.c` on the store: `dest_ss` and
`src_ss` are the two pointers, which may be equal. `vec_init` leaves a vector
empty. -/
def supersect_move (st : ss_store) (dest_ss src_ss : Nat) : ss_store :=
  let st1 : ss_store := fun p => if p = dest_ss then st src_ss else st p
  fun p =>
    if p = src_ss then
      { st1 src_ss with contents := [], relocs := [], new_relocs := [] }
    else st1 p

/-- Modelled from the spec: the macro `align (x, n)` of `objcommon.h`, the next
multiple of `n` from `x`. -/
def align (x n : Nat) : Nat :=
  (x + n - 1) / n * n

/-- The search of `ffs` from bit `i` on, over `fuel` bits. -/
def ffs_from : Nat → Nat → Nat → Nat
  | 0, _, _ => 0
  | fuel + 1, i, x => if x.testBit i then i + 1 else ffs_from fuel (i + 1) x

/-- The C library function `ffs` on an `int`: one plus the index of the least
significant set bit among the 32 bits, and 0 when there is none. -/
def ffs (x : Nat) : Nat :=
  ffs_from 32 0 x

/-- Modelled from the spec: the macro `vec_grow (vec, n)` of `objcommon.h` on a
byte vector: the vector with `n` more elements, zero-initialised, and the
offset of the region added, which is the old size. -/
def vec_grow (contents : List Nat) (n : Nat) : List Nat × Nat :=
  (contents ++ List.replicate n 0, contents.length)

/-- The function `sect_do_grow` of `objcommon.c`: the section after the call
and the offset, from the start of the content, of the pointer returned;
`alignment` is a positive `int`. -/
def sect_do_grow (ss : supersect) (n size alignment : Nat) : supersect × Nat :=
  let ss : supersect :=
    if ss.alignment < (ffs alignment : Int) - 1 then
      { ss with alignment := (ffs alignment : Int) - 1 }
    else ss
  let pad := align ss.contents.length alignment - ss.contents.length
  let grown := vec_grow ss.contents ((pad + n * size) % vma_mod)
  let out := grown.2
  -- `memset (out, 0, pad + n * size)` writes zeros over the region added
  let ss : supersect := { ss with contents := grown.1 }
  (ss, out + pad)

/-- The function `mod_relocs` of `objcommon.c`: the destination vector after
the call. -/
def mod_relocs (dest_relocs src_relocs : List arelent) (start stop mod : Nat) :
    List arelent :=
  match src_relocs with
  | [] => dest_relocs
  | reloc :: rest =>
    if decide (reloc.address ≥ start) && decide (reloc.address < stop) then
      mod_relocs (dest_relocs ++ [{ reloc with address := (reloc.address + mod) % vma_mod }])
        rest start stop mod
    else mod_relocs dest_relocs rest start stop mod

/-- The bytes of `dest` after `memcpy (dest + d, src + s, n)`, both ranges
lying inside their buffer. -/
def memcpy (dest : List Nat) (d : Nat) (src : List Nat) (s n : Nat) : List Nat :=
  dest.take d ++ (src.drop s).take n ++ dest.drop (d + n)

/-- The function `sect_do_copy` of `objcommon.c` for two distinct sections:
the destination and the source after the call. The pointers `dest` and `src`
are the offsets `d` and `s` into the two contents; `none` stands for the
undefined behaviour of `memcpy` when a range leaves its buffer. -/
def sect_do_copy (dest_ss : supersect) (d : Nat) (src_ss : supersect) (s n : Nat) :
    Option (supersect × supersect) :=
  if d + n ≤ dest_ss.contents.length ∧ s + n ≤ src_ss.contents.length then
    let contents := memcpy dest_ss.contents d src_ss.contents s n
    let start := s
    let stop := (start + n) % vma_mod
    -- `(dest - dest_ss->contents.data) - (src - src_ss->contents.data)` as a `bfd_size_type`
    let mod := (d + vma_mod - s) % vma_mod
    let relocs := mod_relocs dest_ss.relocs src_ss.relocs start stop mod
    let new_relocs := mod_relocs dest_ss.new_relocs src_ss.new_relocs start stop mod
    some ({ dest_ss with contents := contents, relocs := relocs, new_relocs := new_relocs },
      src_ss)
  else none

/-- A sequence of calls of `sect_do_grow` on one section, each given by its
arguments `(n, size, alignment)`: the section after the last call and the
offsets returned, in call order. -/
def sect_do_grow_calls (ss : supersect) : List (Nat × Nat × Nat) → supersect × List Nat
  | [] => (ss, [])
  | (n, size, alignment) :: rest =>
    let r := sect_do_grow ss n size alignment
    let rs := sect_do_grow_calls r.1 rest
    (rs.1, r.2 :: rs.2)

/-! ## Predicates on inputs and specification-side definitions -/

/-- Every relocation of every section of the object decodes without aborting:
`get_reloc_offset`, called as `relocs_equal` calls it, returns a value. -/
def decodes_ok (sbfd : superbfd) : Bool :=
  sbfd.sections.all (fun s =>
    s.relocs.all (fun r => (get_reloc_offset (fetch_supersect sbfd s) r true).isSome))

/-- Every string read that `relocs_equal` makes for a text section of the
object is defined: for each relocation of a section whose name starts with
`.text`, when the referenced section is `.rodata.str`-prefixed and the decoded
offset is below its content length, the read at `sym.value + offset` is inside
the content and NUL-terminated. -/
def string_reads_ok (sbfd : superbfd) : Bool :=
  sbfd.sections.all (fun s =>
    !starts_with s.name ".text" ||
    s.relocs.all (fun r =>
      match get_reloc_offset (fetch_supersect sbfd s) r true with
      | none => true
      | some offset =>
        !(starts_with r.sym.sect.name ".rodata.str" &&
            decide (offset < r.sym.sect.contents.length)) ||
          c_string_ok r.sym.sect.contents ((r.sym.value + offset) % vma_mod)))

/-- Every export record of the object is read inside its section: each record
of an export-table section lies inside the content and, when its name pointer
resolves, the pointer designates a position inside the content of its section
with a NUL byte at it or after it. -/
def export_names_ok (sbfd : superbfd) : Bool :=
  sbfd.sections.all (fun sect =>
    !starts_with sect.name "__ksymtab" || ends_with sect.name "_strings" ||
    (record_offsets sect.contents.length).all (fun sym =>
      decide (sym + sizeof_kernel_symbol ≤ sect.contents.length) &&
      match read_pointer (fetch_supersect sbfd sect) (sym + offsetof_name) with
      | some (some (s, pos)) => c_string_ok s.contents pos
      | _ => true))

/-- Every relocation field of the object lies inside the content of its
section: the `size` bytes at `address` that `get_reloc_offset` reads. -/
def reloc_fields_ok (sbfd : superbfd) : Bool :=
  sbfd.sections.all (fun s =>
    s.relocs.all (fun r => decide (r.address + r.howto.size ≤ s.contents.length)))

/-- The spec's condition for printing a new export `e`: no export of the old
list has both the same name and the same owning-section name. -/
def spec_export_unmatched (old_exports : List export_sym) (e : export_sym) : Bool :=
  decide (∀ o ∈ old_exports, ¬ (o.name = e.name ∧ o.sect.name = e.sect.name))

/-- The spec's layout of a list of printed exports: each name after a blank, in
list order, and before each run of names from one section a newline, the
prefix and the section name. `last` is the section of the entry before. -/
def spec_print_runs (addstr : String) : Option Nat → List export_sym → String
  | _, [] => ""
  | last, e :: es =>
    (if last = some e.sect_id then "" else "\n" ++ addstr ++ e.sect.name) ++
      (" " ++ e.name ++ spec_print_runs addstr (some e.sect_id) es)

/-- The spec's condition of Pass B for reporting a section `S` of the new
object: its name starts with `.text`, the old object has a section of that
name, and it is not the case that the two content lengths are equal, the bytes
are identical and `relocs_equal` holds for the pair. -/
def spec_nonmatching (oldsbfd newsbfd : superbfd) (S : asection) : Prop :=
  starts_with S.name ".text" = true ∧
    ∃ oldp, bfd_get_section_by_name oldsbfd S.name = some oldp ∧
      ¬ (S.contents.length = oldp.contents.length ∧ S.contents = oldp.contents ∧
        relocs_equal oldsbfd oldp newsbfd S = some true)

/-- The spec's decoded field of a relocation before any addition: the stored
field masked and shifted down by the bit position, sign-extended when the
policy is signed or bitfield and left as it is when unsigned, then shifted up
by the scale shift. -/
def spec_shifted_field (ss : supersect) (reloc : arelent) : Nat :=
  let x := (bfd_get (reloc.howto.size * 8) ss.big_endian ss.contents reloc.address &&&
    reloc.howto.src_mask) >>> reloc.howto.bitpos
  let signbit := (reloc.howto.dst_mask % vma_mod) >>> reloc.howto.bitpos
  let signbit := signbit &&& vma_not (signbit >>> 1)
  let x := if reloc.howto.complain_on_overflow = complain_overflow_unsigned then x
    else x ||| vma_neg (x &&& signbit)
  (x <<< reloc.howto.rightshift) % vma_mod

/-- The spec's invariant of a section content model: every entry of `relocs`
and of `new_relocs` has its address inside the content. -/
def spec_relocs_in_range (ss : supersect) : Prop :=
  (∀ r ∈ ss.relocs, r.address < ss.contents.length) ∧
    (∀ r ∈ ss.new_relocs, r.address < ss.contents.length)

/-! ## Concrete objects used as inputs -/

/-- A section without relocations whose label is its name. -/
def plain_section (name : String) (contents : List Nat) : asection :=
  { name := name, label := name, special := false, flags := 0, alignment := 0,
    contents := contents, relocs := [] }

/-- An object whose only section is `.rodata` with the single byte 1. -/
def rodata_old : superbfd := ⟨false, [plain_section ".rodata" [1]]⟩

/-- The same object after the byte of `.rodata` changed to 2. -/
def rodata_new : superbfd := ⟨false, [plain_section ".rodata" [2]]⟩

/-- An old object with a data section and a string-literal section. -/
def sample_old : superbfd :=
  ⟨false, [plain_section ".data.x" [0], plain_section ".rodata.str1.1" [97, 0]]⟩

/-- A new object with one more text section than `sample_old`. -/
def sample_new : superbfd :=
  ⟨false, [plain_section ".text.foo" [144], plain_section ".data.x" [7],
    plain_section ".rodata.str1.1" [98, 0]]⟩

/-- A 64-bit absolute relocation descriptor whose field is the whole word. -/
def howto_abs64 : reloc_howto_type :=
  { size := 8, rightshift := 0, bitpos := 0,
    complain_on_overflow := complain_overflow_bitfield,
    pc_relative := false, pcrel_offset := false,
    src_mask := 0xffffffffffffffff, dst_mask := 0xffffffffffffffff }

/-- The export-strings section with the given bytes, as a symbol sees it. -/
def strings_sect (bs : List Nat) : symsect :=
  { name := "__ksymtab_strings", contents := bs, is_abs := false, is_const := false }

/-- An empty `.text` section, as a symbol sees it. -/
def text_symsect : symsect :=
  { name := ".text", contents := [], is_abs := false, is_const := false }

/-- The relocation of a `name` field at `addr` to offset `pos` of the strings. -/
def name_reloc (strs : List Nat) (addr pos : Nat) : arelent :=
  { sym := ⟨"__ksymtab_strings", strings_sect strs, 0⟩, address := addr, addend := pos,
    howto := howto_abs64 }

/-- The relocation of a `value` field at `addr` to the start of `.text`. -/
def value_reloc (addr : Nat) : arelent :=
  { sym := ⟨".text", text_symsect, 0⟩, address := addr, addend := 0, howto := howto_abs64 }

/-- An export table `__ksymtab` of two records whose names are the strings at
offsets 0 and 2 of the given export-strings bytes. -/
def ksymtab_sect (strs : List Nat) : asection :=
  { name := "__ksymtab", label := "__ksymtab", special := false, flags := 0, alignment := 3,
    contents := List.replicate 32 0,
    relocs := [value_reloc 0, name_reloc strs 8 0, value_reloc 16, name_reloc strs 24 2] }

/-- An object that exports `a` and `b` from `__ksymtab`. -/
def exports_old : superbfd := ⟨false, [ksymtab_sect [97, 0, 98, 0]]⟩

/-- An object that exports `a` and `c` from `__ksymtab`. -/
def exports_new : superbfd := ⟨false, [ksymtab_sect [97, 0, 99, 0]]⟩

/-- A section content model with the given bytes and no relocations. -/
def bytes_ss (big_endian : Bool) (contents : List Nat) : supersect :=
  { big_endian := big_endian, name := ".text", flags := 0, contents := contents,
    alignment := 0, relocs := [], new_relocs := [] }

/-- A relocation at offset 0 against the start of an empty `.text`, with zero
addend and the given descriptor. -/
def reloc_at_zero (howto : reloc_howto_type) : arelent :=
  { sym := ⟨".text", text_symsect, 0⟩, address := 0, addend := 0, howto := howto }

/-- An unsigned 16-bit field at bits 8 to 23 of a 32-bit word. -/
def howto_field16 : reloc_howto_type :=
  { size := 4, rightshift := 0, bitpos := 8,
    complain_on_overflow := complain_overflow_unsigned,
    pc_relative := false, pcrel_offset := false,
    src_mask := 0x00ffff00, dst_mask := 0x00ffff00 }

/-- A signed 32-bit field whose stored bits are not part of the value
(`src_mask` is zero, the addend lives in the relocation entry). -/
def howto_rela32 : reloc_howto_type :=
  { size := 4, rightshift := 0, bitpos := 0,
    complain_on_overflow := complain_overflow_signed,
    pc_relative := false, pcrel_offset := false,
    src_mask := 0, dst_mask := 0xffffffff }

/-- A signed 32-bit field stored in place. -/
def howto_rel32 : reloc_howto_type :=
  { size := 4, rightshift := 0, bitpos := 0,
    complain_on_overflow := complain_overflow_signed,
    pc_relative := false, pcrel_offset := false,
    src_mask := 0xffffffff, dst_mask := 0xffffffff }

/-- A 32-bit absolute relocation descriptor stored in place. -/
def howto_abs32 : reloc_howto_type :=
  { size := 4, rightshift := 0, bitpos := 0,
    complain_on_overflow := complain_overflow_bitfield,
    pc_relative := false, pcrel_offset := false,
    src_mask := 0xffffffff, dst_mask := 0xffffffff }

/-- A data section of eight zero bytes, as a symbol sees it. -/
def data_symsect : symsect :=
  { name := ".data", contents := List.replicate 8 0, is_abs := false, is_const := false }

/-- A text section of four bytes that hold `stored`, with one relocation at
offset 0 against the symbol `sym_name` of `.data` at `sym_value`. -/
def text_to_data (stored : Nat) (sym_name : String) (sym_value : Nat) : asection :=
  { name := ".text", label := ".text", special := false, flags := 0, alignment := 0,
    contents := [stored, 0, 0, 0],
    relocs := [{ sym := ⟨sym_name, data_symsect, sym_value⟩, address := 0, addend := 0,
                 howto := howto_abs32 }] }

/-- A string-literal section with the given bytes, as a symbol sees it. -/
def str_symsect (bs : List Nat) : symsect :=
  { name := ".rodata.str1.1", contents := bs, is_abs := false, is_const := false }

/-- The section symbol of a string-literal section with the given bytes. -/
def str_symbol (bs : List Nat) : asymbol :=
  { name := ".rodata.str1.1", sect := str_symsect bs, value := 0 }

/-- A text section of four zero bytes with one relocation at offset 0 against
the given symbol, with the given addend. -/
def text_to_sym (sym : asymbol) (addend : Nat) : asection :=
  { name := ".text", label := ".text", special := false, flags := 0, alignment := 0,
    contents := [0, 0, 0, 0],
    relocs := [{ sym := sym, address := 0, addend := addend, howto := howto_abs32 }] }

/-- A 32-bit descriptor whose overflow policy is `complain_overflow_dont`. -/
def howto_dont32 : reloc_howto_type :=
  { size := 4, rightshift := 0, bitpos := 0,
    complain_on_overflow := complain_overflow_dont,
    pc_relative := false, pcrel_offset := false,
    src_mask := 0xffffffff, dst_mask := 0xffffffff }

/-- A generic read-only-data section with the given bytes, as a symbol sees
it. -/
def rodata_symsect (bs : List Nat) : symsect :=
  { name := ".rodata", contents := bs, is_abs := false, is_const := false }

/-- A text section of four zero bytes with one relocation at offset 0, with the
given descriptor, against the start of a `.rodata` section with the given
bytes. -/
def text_to_rodata (howto : reloc_howto_type) (bs : List Nat) : asection :=
  { name := ".text", label := ".text", special := false, flags := 0, alignment := 0,
    contents := [0, 0, 0, 0],
    relocs := [{ sym := ⟨".rodata", rodata_symsect bs, 0⟩, address := 0, addend := 0,
                 howto := howto }] }

/-- An object with one text section that references `.rodata` with the given
bytes through a relocation with the given descriptor. -/
def text_rodata_obj (howto : reloc_howto_type) (bs : List Nat) : superbfd :=
  ⟨false, [text_to_rodata howto bs, plain_section ".rodata" bs]⟩

/-- An object with two sections named `.text` whose bytes differ. -/
def twin_text_obj : superbfd :=
  ⟨false, [plain_section ".text" [1], plain_section ".text" [2]]⟩

/-- A text section `.text.str` of four zero bytes whose relocation, with addend
3, reads the string `cd` of a string-literal section `ab\0cd\0`. -/
def text_str_sect : asection :=
  { name := ".text.str", label := ".text.str", special := false, flags := 0, alignment := 0,
    contents := [0, 0, 0, 0],
    relocs := [{ sym := str_symbol [97, 98, 0, 99, 100, 0], address := 0, addend := 3,
                 howto := howto_abs32 }] }

/-- An object with a text section that references `.rodata`, a text section
that references a string literal, the two data sections, and an export table
of two records. -/
def full_obj : superbfd :=
  ⟨false, [text_to_rodata howto_abs32 [1], text_str_sect, plain_section ".rodata" [1],
    plain_section ".rodata.str1.1" [97, 98, 0, 99, 100, 0], ksymtab_sect [97, 0, 98, 0]]⟩

/-- A pc-relative signed 32-bit field stored in place, whose addend does not
include the address of the relocation. -/
def howto_pc32 : reloc_howto_type :=
  { size := 4, rightshift := 0, bitpos := 0,
    complain_on_overflow := complain_overflow_signed,
    pc_relative := true, pcrel_offset := false,
    src_mask := 0xffffffff, dst_mask := 0xffffffff }

/-- A store with the one byte `p` at pointer `p`. -/
def store_by_pointer : ss_store := fun p => bytes_ss false [p]

/-- A section content model of three bytes with recorded alignment 1. -/
def three_bytes_ss : supersect :=
  { big_endian := false, name := ".data", flags := 0, contents := [1, 2, 3],
    alignment := 1, relocs := [], new_relocs := [] }

/-- A relocation against the start of an empty `.text` at the given address,
with addend 7. -/
def reloc_at (address : Nat) : arelent :=
  { sym := ⟨".text", text_symsect, 0⟩, address := address, addend := 7,
    howto := howto_abs32 }

/-- A source section of six bytes with relocations at 1 and 4 and a new
relocation at 2. -/
def copy_src : supersect :=
  { big_endian := false, name := ".data", flags := 0, contents := [10, 11, 12, 13, 14, 15],
    alignment := 0, relocs := [reloc_at 1, reloc_at 4], new_relocs := [reloc_at 2] }

/-- A destination section of eight zero bytes with a relocation at 0. -/
def copy_dest : supersect :=
  { big_endian := false, name := ".data.new", flags := 0,
    contents := [0, 0, 0, 0, 0, 0, 0, 0],
    alignment := 0, relocs := [reloc_at 0], new_relocs := [] }

/-- An export table `__ksymtab` of 8 bytes with a single relocation, at offset
8, to the string `a` of the export strings. -/
def half_record_sect : asection :=
  { name := "__ksymtab", label := "__ksymtab", special := false, flags := 0, alignment := 3,
    contents := List.replicate 8 0,
    relocs := [name_reloc [97, 0] 8 0] }

/-- An object whose only section is `half_record_sect`. -/
def half_record_obj : superbfd := ⟨false, [half_record_sect]⟩

/-- A symbol at offset 2 of a string-literal section that holds `ab\0`. -/
def str_symbol_at_two : asymbol :=
  { name := ".LC1", sect := str_symsect [97, 98, 0], value := 2 }

/-! ## Shared lemmas -/

theorem memcmp_eq_self (a : List Nat) (n : Nat) : memcmp_eq a a n = true := by
  simp [memcmp_eq]

theorem bfd_get_lt (bits : Nat) (be : Bool) (data : List Nat) (addr : Nat) :
    bfd_get bits be data addr < vma_mod := by
  unfold bfd_get
  exact Nat.mod_lt _ (by decide)

theorem testBit_vma_not (x i : Nat) :
    (vma_not x).testBit i = (decide (i < 64) && !x.testBit i) := by
  have h : x % vma_mod < 2 ^ 64 := Nat.mod_lt _ (by decide)
  have e : vma_not x = 2 ^ 64 - (x % vma_mod + 1) := by
    unfold vma_not vma_mod
    omega
  rw [e, Nat.testBit_two_pow_sub_succ h, vma_mod, Nat.testBit_mod_two_pow]
  by_cases hi : i < 64 <;> simp [hi]

theorem field_and_src_mask (w v m b : Nat) (hfit : (v <<< b) &&& m = v <<< b) :
    ((w &&& vma_not m) ||| (v <<< b)) &&& m = v <<< b := by
  apply Nat.eq_of_testBit_eq
  intro i
  have h := congrArg (fun t => Nat.testBit t i) hfit
  simp only [Nat.testBit_and] at h
  simp only [Nat.testBit_and, Nat.testBit_or, testBit_vma_not]
  revert h
  cases (v <<< b).testBit i <;> cases m.testBit i <;> simp

theorem shiftRight_le_self (x b : Nat) : x >>> b ≤ x := by
  rw [Nat.shiftRight_eq_div_pow]
  exact Nat.div_le_self _ _

/-- Sign extension step of `get_reloc_offset`: with `k` the top bit of the
field mask `s` set in the field `x`, the value `x | -(x & signbit)` has every
bit from `k` to 63 set. -/
theorem sign_extend_bits (x s k : Nat) (hx : x < vma_mod) (hs : s < vma_mod)
    (hk : s.testBit k = true) (hk2 : s < 2 ^ (k + 1)) (hxk : x.testBit k = true) :
    x ||| vma_neg (x &&& (s &&& vma_not (s >>> 1))) < vma_mod ∧
    (∀ j, k ≤ j → j < 64 →
      (x ||| vma_neg (x &&& (s &&& vma_not (s >>> 1)))).testBit j = true) := by
  have hk64 : k < 64 := by
    have h1 := Nat.testBit_implies_ge hk
    have h2 : 2 ^ k < 2 ^ 64 := lt_of_le_of_lt h1 hs
    exact (Nat.pow_lt_pow_iff_right (by decide)).mp h2
  have hsk1 : s.testBit (1 + k) = false := by
    rw [Nat.add_comm]
    exact Nat.testBit_lt_two_pow hk2
  have hyk : (x &&& (s &&& vma_not (s >>> 1))).testBit k = true := by
    simp [Nat.testBit_and, testBit_vma_not, hxk, hk, hk64, hsk1]
  have hylt : x &&& (s &&& vma_not (s >>> 1)) < 2 ^ (k + 1) :=
    lt_of_le_of_lt (le_trans Nat.and_le_right Nat.and_le_left) hk2
  have hyge := Nat.testBit_implies_ge hyk
  have hypos : 0 < x &&& (s &&& vma_not (s >>> 1)) := lt_of_lt_of_le (Nat.pos_pow_of_pos _ (by decide)) hyge
  have hy64 : x &&& (s &&& vma_not (s >>> 1)) < vma_mod := lt_of_le_of_lt Nat.and_le_left hx
  generalize x &&& (s &&& vma_not (s >>> 1)) = y at *
  have hneg : vma_neg y = 2 ^ 64 - ((y - 1) + 1) := by
    unfold vma_neg
    rw [Nat.mod_eq_of_lt hy64, Nat.mod_eq_of_lt (by unfold vma_mod at *; omega)]
    unfold vma_mod
    omega
  have hneglt : vma_neg y < vma_mod := by
    unfold vma_neg
    exact Nat.mod_lt _ (by decide)
  refine ⟨Nat.or_lt_two_pow hx hneglt, ?_⟩
  intro j hkj hj
  rw [Nat.testBit_or]
  rcases Nat.eq_or_lt_of_le hkj with rfl | hlt
  · simp [hxk]
  · have hy1 : y - 1 < 2 ^ j := by
      have : 2 ^ (k + 1) ≤ 2 ^ j := Nat.pow_le_pow_right (by decide) hlt
      omega
    have hy1' : y - 1 < 2 ^ 64 := by unfold vma_mod at hy64; omega
    rw [hneg, Nat.testBit_two_pow_sub_succ hy1', Nat.testBit_lt_two_pow hy1]
    simp [hj]

theorem signbit_contiguous (k : Nat) (hk64 : k < 64) :
    (2 ^ (k + 1) - 1) &&& vma_not ((2 ^ (k + 1) - 1) >>> 1) = 2 ^ k := by
  apply Nat.eq_of_testBit_eq
  intro i
  simp only [Nat.testBit_and, testBit_vma_not, Nat.testBit_shiftRight,
    Nat.testBit_two_pow_sub_one, Nat.testBit_two_pow]
  by_cases h1 : i < k
  · have : ¬ k = i := by omega
    simp [this]
    intro _ _
    omega
  · by_cases h2 : k = i
    · subst h2
      simp [hk64]
      omega
    · have : ¬ i < k + 1 := by omega
      simp [this, h2]

theorem and_two_pow_of_testBit (x k : Nat) (hxk : x.testBit k = true) : x &&& 2 ^ k = 2 ^ k := by
  apply Nat.eq_of_testBit_eq
  intro i
  simp only [Nat.testBit_and, Nat.testBit_two_pow]
  by_cases h : k = i
  · subst h
    simp [hxk]
  · simp [h]

theorem vma_neg_two_pow (k : Nat) (hk64 : k < 64) : vma_neg (2 ^ k) = vma_mod - 2 ^ k := by
  have h1 : 2 ^ k < 2 ^ 64 := Nat.pow_lt_pow_right (by decide) hk64
  have h2 : 0 < 2 ^ k := Nat.pos_pow_of_pos _ (by decide)
  have e1 : 2 ^ k % vma_mod = 2 ^ k := Nat.mod_eq_of_lt h1
  have e2 : (vma_mod - 2 ^ k) % vma_mod = vma_mod - 2 ^ k :=
    Nat.mod_eq_of_lt (by unfold vma_mod; omega)
  unfold vma_neg
  rw [e1, e2]

theorem starts_with_rodata_of_str (name : String)
    (h : starts_with name ".rodata.str" = true) : starts_with name ".rodata" = true := by
  unfold starts_with at *
  rw [List.isPrefixOf_iff_prefix] at *
  exact List.IsPrefix.trans (by decide) h

/-- Whether `get_reloc_offset` returns depends on the overflow policy alone. -/
theorem get_reloc_offset_isSome_iff (ss : supersect) (reloc : arelent) (adjust_pc : Bool) :
    (get_reloc_offset ss reloc adjust_pc).isSome = true ↔
      reloc.howto.complain_on_overflow ≠ complain_overflow_dont := by
  unfold get_reloc_offset
  cases h : reloc.howto.complain_on_overflow <;> simp

theorem relocs_equal_at_self (sym : asymbol) (offset : Nat) :
    relocs_equal_at sym sym offset offset = true := by
  unfold relocs_equal_at
  simp [memcmp_eq_self]

/-- The loop of `relocs_equal` returns true exactly when, at every index, both
offsets decode and the loop body falls through. -/
theorem relocs_equal_loop_eq_true_iff (old_ss new_ss : supersect) (os ns : List arelent)
    (hlen : os.length = ns.length) :
    relocs_equal_loop old_ss new_ss os ns = some true ↔
      ∀ (i : Nat) (h1 : i < os.length) (h2 : i < ns.length),
        ∃ oo no, get_reloc_offset old_ss os[i] true = some oo ∧
          get_reloc_offset new_ss ns[i] true = some no ∧
          relocs_equal_at os[i].sym ns[i].sym oo no = true := by
  induction os generalizing ns with
  | nil =>
    cases ns with
    | nil => simp [relocs_equal_loop]
    | cons n ns => simp at hlen
  | cons o os ih =>
    cases ns with
    | nil => simp at hlen
    | cons n ns =>
      have hlen2 : os.length = ns.length := by simpa using hlen
      unfold relocs_equal_loop
      constructor
      · intro h i h1 h2
        cases hoo : get_reloc_offset old_ss o true with
        | none => simp [hoo] at h
        | some oo =>
          cases hno : get_reloc_offset new_ss n true with
          | none => simp [hoo, hno] at h
          | some no =>
            simp only [hoo, hno] at h
            by_cases hat : relocs_equal_at o.sym n.sym oo no = true
            · rw [if_pos hat] at h
              cases i with
              | zero => exact ⟨oo, no, hoo, hno, hat⟩
              | succ i =>
                simp only [List.length_cons, Nat.add_lt_add_iff_right] at h1 h2
                simpa using (ih ns hlen2).mp h i h1 h2
            · rw [if_neg hat] at h
              cases h
      · intro h
        obtain ⟨oo, no, hoo, hno, hat⟩ := h 0 (by simp) (by simp)
        simp only [List.getElem_cons_zero] at hoo hno hat
        simp only [hoo, hno, hat, if_true]
        apply (ih ns hlen2).mpr
        intro i h1 h2
        simpa using h (i + 1) (by simpa using h1) (by simpa using h2)

/-- When every relocation decodes, the loop of `relocs_equal` returns. -/
theorem relocs_equal_loop_isSome (old_ss new_ss : supersect) (os ns : List arelent)
    (ho : ∀ r ∈ os, (get_reloc_offset old_ss r true).isSome = true)
    (hn : ∀ r ∈ ns, (get_reloc_offset new_ss r true).isSome = true) :
    (relocs_equal_loop old_ss new_ss os ns).isSome = true := by
  induction os generalizing ns with
  | nil => simp [relocs_equal_loop]
  | cons o os ih =>
    cases ns with
    | nil => simp [relocs_equal_loop]
    | cons n ns =>
      unfold relocs_equal_loop
      obtain ⟨oo, hoo⟩ := Option.isSome_iff_exists.mp (ho o (List.mem_cons_self _ _))
      obtain ⟨no, hno⟩ := Option.isSome_iff_exists.mp (hn n (List.mem_cons_self _ _))
      simp only [hoo, hno]
      by_cases hat : relocs_equal_at o.sym n.sym oo no = true
      · rw [if_pos hat]
        exact ih ns (fun r hr => ho r (List.mem_cons_of_mem _ hr))
          (fun r hr => hn r (List.mem_cons_of_mem _ hr))
      · rw [if_neg hat]
        rfl

/-- The inner loop of `foreach_new_section` leaves `oldsect` at the first old
section with the same name or the same label, and at `NULL` when there is
none: the content comparison of the read-only-data branch compares the old
section with itself. -/
theorem foreach_new_section_inner_eq_find (oldsbfd : superbfd) (newsect : asection)
    (l : List asection) :
    foreach_new_section_inner oldsbfd newsect l =
      l.find? (fun o => decide (newsect.name = o.name) || decide (newsect.label = o.label)) := by
  induction l with
  | nil => rfl
  | cons o rest ih =>
    unfold foreach_new_section_inner
    by_cases hn : newsect.name = o.name
    · by_cases hr : starts_with newsect.name ".rodata" = true
      · simp [hn, hr, List.find?_cons, memcmp_eq_self]
      · simp [hn, hr, List.find?_cons]
        simp [← hn, hr]
    · by_cases hl : newsect.label = o.label
      · by_cases hr : starts_with newsect.name ".rodata" = true
        · simp [hn, hl, hr, List.find?_cons, memcmp_eq_self]
        · simp [hn, hl, hr, List.find?_cons]
      · simp [hn, hl, List.find?_cons, ih]

theorem foreach_new_section_inner_eq_none_iff (oldsbfd : superbfd) (newsect : asection)
    (l : List asection) :
    foreach_new_section_inner oldsbfd newsect l = none ↔
      ∀ o ∈ l, o.name ≠ newsect.name ∧ o.label ≠ newsect.label := by
  rw [foreach_new_section_inner_eq_find, List.find?_eq_none]
  constructor
  · intro h o ho
    have := h o ho
    simp only [Bool.or_eq_true, decide_eq_true_eq, not_or] at this
    exact ⟨fun e => this.1 e.symm, fun e => this.2 e.symm⟩
  · intro h o ho
    have := h o ho
    simp only [Bool.or_eq_true, decide_eq_true_eq, not_or]
    exact ⟨fun e => this.1 e.symm, fun e => this.2 e.symm⟩

/-- Membership in the result of the outer loop of `foreach_new_section`. -/
theorem mem_foreach_new_section_loop_iff (oldsbfd newsbfd : superbfd) (l : List asection)
    (S : asection) :
    S ∈ foreach_new_section_loop oldsbfd newsbfd l ↔
      S ∈ l ∧ starts_with S.name ".rodata.str" = false ∧ S.special = false ∧
        ∀ o ∈ oldsbfd.sections, o.name ≠ S.name ∧ o.label ≠ S.label := by
  induction l with
  | nil => simp [foreach_new_section_loop]
  | cons n rest ih =>
    unfold foreach_new_section_loop
    by_cases hskip : (starts_with n.name ".rodata.str" || n.special) = true
    · rw [if_pos hskip, ih]
      constructor
      · rintro ⟨h1, h2⟩
        exact ⟨List.mem_cons_of_mem _ h1, h2⟩
      · rintro ⟨h1, h2, h3, h4⟩
        rcases List.mem_cons.mp h1 with rfl | h1
        · simp [h2, h3] at hskip
        · exact ⟨h1, h2, h3, h4⟩
    · rw [if_neg hskip]
      simp only [Bool.or_eq_true, not_or, Bool.not_eq_true] at hskip
      cases hin : foreach_new_section_inner oldsbfd n oldsbfd.sections with
      | none =>
        simp only [List.mem_cons, ih]
        rw [foreach_new_section_inner_eq_none_iff] at hin
        constructor
        · rintro (rfl | ⟨h1, h2⟩)
          · exact ⟨Or.inl rfl, hskip.1, hskip.2, hin⟩
          · exact ⟨Or.inr h1, h2⟩
        · rintro ⟨h1 | h1, h2⟩
          · exact Or.inl h1
          · exact Or.inr ⟨h1, h2⟩
      | some o =>
        simp only [ih]
        have hne : ¬ (∀ o ∈ oldsbfd.sections, o.name ≠ n.name ∧ o.label ≠ n.label) := by
          rw [← foreach_new_section_inner_eq_none_iff oldsbfd n, hin]
          simp
        constructor
        · rintro ⟨h1, h2⟩
          exact ⟨List.mem_cons_of_mem _ h1, h2⟩
        · rintro ⟨h1, h2, h3, h4⟩
          rcases List.mem_cons.mp h1 with rfl | h1
          · exact absurd h4 hne
          · exact ⟨h1, h2, h3, h4⟩

/-! ## Pass C: new and deleted sections -/

/-- C1 (evaluation at the failing input): the byte of `.rodata` differs between
`rodata_old` and `rodata_new`, yet `foreach_new_section` invokes its callback
on no section in either direction, so the changed read-only-data section is
listed neither as new nor as deleted. -/
theorem C1_changed_rodata_not_reported :
    (plain_section ".rodata" [1]).contents ≠ (plain_section ".rodata" [2]).contents ∧
    starts_with ".rodata" ".rodata" = true ∧
    starts_with ".rodata" ".rodata.str" = false ∧
    foreach_new_section rodata_old rodata_new = [] ∧
    foreach_new_section rodata_new rodata_old = [] := by
  decide

/-- C8: `foreach_new_section` invokes its callback on every section of the new
object that is neither `.rodata.str`-prefixed nor special and that no old
section matches by name or by label; it does not invoke it on a section whose
name does not start with `.rodata` when an old section has the same name or the
same label; and it does not invoke it on a `.rodata.str`-prefixed or special
section. -/
theorem C8_foreach_new_section_reports (oldsbfd newsbfd : superbfd) (S : asection) :
    (S ∈ newsbfd.sections → starts_with S.name ".rodata.str" = false → S.special = false →
      (∀ o ∈ oldsbfd.sections, o.name ≠ S.name ∧ o.label ≠ S.label) →
      S ∈ foreach_new_section oldsbfd newsbfd) ∧
    (starts_with S.name ".rodata" = false →
      (∃ o ∈ oldsbfd.sections, o.name = S.name ∨ o.label = S.label) →
      S ∉ foreach_new_section oldsbfd newsbfd) ∧
    (starts_with S.name ".rodata.str" = true ∨ S.special = true →
      S ∉ foreach_new_section oldsbfd newsbfd) := by
  unfold foreach_new_section
  refine ⟨?_, ?_, ?_⟩
  · intro h1 h2 h3 h4
    exact (mem_foreach_new_section_loop_iff _ _ _ _).mpr ⟨h1, h2, h3, h4⟩
  · rintro _ ⟨o, ho, hm⟩ hmem
    have h := ((mem_foreach_new_section_loop_iff _ _ _ _).mp hmem).2.2.2 o ho
    rcases hm with hm | hm
    · exact h.1 hm
    · exact h.2 hm
  · intro h hmem
    have h2 := (mem_foreach_new_section_loop_iff _ _ _ _).mp hmem
    rcases h with h | h
    · rw [h2.2.1] at h
      cases h
    · rw [h2.2.2.1] at h
      cases h

/-- C8 at `sample_old`, `sample_new`: the unmatched `.text.foo` is reported, the
matched `.data.x` and the string-literal section are not. -/
theorem C8_foreach_new_section_reports_witness :
    plain_section ".text.foo" [144] ∈ foreach_new_section sample_old sample_new ∧
    plain_section ".data.x" [7] ∉ foreach_new_section sample_old sample_new ∧
    plain_section ".rodata.str1.1" [98, 0] ∉ foreach_new_section sample_old sample_new :=
  ⟨(C8_foreach_new_section_reports sample_old sample_new (plain_section ".text.foo" [144])).1
      (by decide) (by decide) (by decide) (by decide),
   (C8_foreach_new_section_reports sample_old sample_new (plain_section ".data.x" [7])).2.1
      (by decide) ⟨plain_section ".data.x" [0], by decide, Or.inl (by decide)⟩,
   (C8_foreach_new_section_reports sample_old sample_new
      (plain_section ".rodata.str1.1" [98, 0])).2.2 (Or.inl (by decide))⟩

/-! ## Pass D: exported symbols -/

theorem compare_exports_loop_eq_spec (old_exports : List export_sym) (addstr : String)
    (last : Option Nat) (new_exports : List export_sym) :
    compare_exports_loop old_exports addstr last new_exports =
      spec_print_runs addstr last (new_exports.filter (spec_export_unmatched old_exports)) := by
  induction new_exports generalizing last with
  | nil => rfl
  | cons e es ih =>
    have hfound : (old_exports.any
        (fun old => e.name == old.name && e.sect.name == old.sect.name)) =
        !spec_export_unmatched old_exports e := by
      rw [Bool.eq_iff_iff]
      simp only [spec_export_unmatched, List.any_eq_true, Bool.and_eq_true, beq_iff_eq,
        Bool.not_eq_true', decide_eq_false_iff_not, not_forall, not_not]
      constructor
      · rintro ⟨o, ho, h1, h2⟩
        exact ⟨o, ho, h1.symm, h2.symm⟩
      · rintro ⟨o, ho, h1, h2⟩
        exact ⟨o, ho, h1.symm, h2.symm⟩
    unfold compare_exports_loop
    simp only [hfound, Bool.not_not]
    cases hu : spec_export_unmatched old_exports e with
    | false =>
      rw [List.filter_cons_of_neg (by simp [hu])]
      simpa using ih last
    | true =>
      rw [List.filter_cons_of_pos hu]
      by_cases hl : last = some e.sect_id
      · simp [spec_print_runs, hl, ih]
      · simp [spec_print_runs, hl, ih]

/-- C4: the text `compare_exported_symbols` prints for two export lists is the
spec's layout of the new exports that no old export matches in both name and
owning-section name, in the order of the new list, a newline, the prefix and
the section name before each run of names from one section. With old exports
`a`, `b` and new exports `a`, `c` in `__ksymtab`, the call with the empty
prefix prints `__ksymtab c` and the swapped call with prefix `del_` prints
`del___ksymtab b`. -/
theorem C4_compare_exported_symbols :
    (∀ (old_exports new_exports : List export_sym) (addstr : String),
      compare_exports old_exports new_exports addstr =
        spec_print_runs addstr none
          (new_exports.filter (spec_export_unmatched old_exports))) ∧
    (∀ (old_exports : List export_sym) (e : export_sym),
      spec_export_unmatched old_exports e = true ↔
        ¬ ∃ o ∈ old_exports, o.name = e.name ∧ o.sect.name = e.sect.name) ∧
    get_export_syms exports_old =
      some [⟨"a", 0, ksymtab_sect [97, 0, 98, 0]⟩, ⟨"b", 0, ksymtab_sect [97, 0, 98, 0]⟩] ∧
    get_export_syms exports_new =
      some [⟨"a", 0, ksymtab_sect [97, 0, 99, 0]⟩, ⟨"c", 0, ksymtab_sect [97, 0, 99, 0]⟩] ∧
    compare_exported_symbols exports_old exports_new "" = some "\n__ksymtab c" ∧
    compare_exported_symbols exports_new exports_old "del_" = some "\ndel___ksymtab b" := by
  refine ⟨?_, ?_, by decide, by decide, by decide, by decide⟩
  · intro o n a
    exact compare_exports_loop_eq_spec o a none n
  · intro o e
    simp [spec_export_unmatched]

/-! ## The relocation resolver -/

/-- C9: decode round-trip for unsigned fields. For a relocation with overflow
policy unsigned, zero addend, not pc-relative and scale shift 0, and a value
`v` that fits the field, if the word stored at the relocation's offset is a
word `w` with the field replaced by `v`, then `get_reloc_offset` returns
exactly `v`. -/
theorem C9_unsigned_roundtrip (ss : supersect) (reloc : arelent) (adjust_pc : Bool) (w v : Nat)
    (hpol : reloc.howto.complain_on_overflow = complain_overflow_unsigned)
    (hadd : reloc.addend = 0)
    (hpc : reloc.howto.pc_relative = false)
    (hrs : reloc.howto.rightshift = 0)
    (hfit : (v <<< reloc.howto.bitpos) &&& reloc.howto.src_mask = v <<< reloc.howto.bitpos)
    (hword : bfd_get (reloc.howto.size * 8) ss.big_endian ss.contents reloc.address =
      (w &&& vma_not reloc.howto.src_mask) ||| (v <<< reloc.howto.bitpos)) :
    get_reloc_offset ss reloc adjust_pc = some v := by
  have hx := field_and_src_mask w v reloc.howto.src_mask reloc.howto.bitpos hfit
  have hlt := bfd_get_lt (reloc.howto.size * 8) ss.big_endian ss.contents reloc.address
  rw [hword] at hlt
  have hv : v < vma_mod := by
    have h1 : v <<< reloc.howto.bitpos ≤
        (w &&& vma_not reloc.howto.src_mask) ||| (v <<< reloc.howto.bitpos) := by
      conv_lhs => rw [← hx]
      exact Nat.and_le_left
    have h2 : v ≤ v <<< reloc.howto.bitpos := by
      rw [Nat.shiftLeft_eq]
      exact Nat.le_mul_of_pos_right _ (Nat.pos_pow_of_pos _ (by decide))
    omega
  unfold get_reloc_offset
  simp only [hword, hx, hpol, hadd, hpc, hrs, Nat.shiftLeft_shiftRight]
  simp [Nat.mod_eq_of_lt hv]

/-- C9 at a 16-bit field in bits 8 to 23 of the little-endian word
`0x12345678`: the value `0x3456` written into the field is decoded. -/
theorem C9_unsigned_roundtrip_witness :
    get_reloc_offset (bytes_ss false [0x78, 0x56, 0x34, 0x12]) (reloc_at_zero howto_field16)
      true = some 0x3456 :=
  C9_unsigned_roundtrip (bytes_ss false [0x78, 0x56, 0x34, 0x12]) (reloc_at_zero howto_field16)
    true 0x12345678 0x3456 (by decide) (by decide) (by decide) (by decide) (by decide)
    (by decide)

/-- C10 as stated fails: with a signed 32-bit field whose `src_mask` is zero
and the stored word `0xffffffff`, the top bit (bit 31) of `dst_mask >> bitpos`
is set in the stored word shifted right by `bitpos`, yet `get_reloc_offset`
returns 0, which is not negative. -/
theorem C10_counterexample :
    howto_rela32.complain_on_overflow = complain_overflow_signed ∧
    (reloc_at_zero howto_rela32).addend = 0 ∧
    howto_rela32.pc_relative = false ∧
    howto_rela32.rightshift = 0 ∧
    ((howto_rela32.dst_mask % vma_mod) >>> howto_rela32.bitpos).testBit 31 = true ∧
    (howto_rela32.dst_mask % vma_mod) >>> howto_rela32.bitpos < 2 ^ 32 ∧
    ((bfd_get (howto_rela32.size * 8) false [0xff, 0xff, 0xff, 0xff] 0) >>>
      howto_rela32.bitpos).testBit 31 = true ∧
    get_reloc_offset (bytes_ss false [0xff, 0xff, 0xff, 0xff]) (reloc_at_zero howto_rela32)
      true = some 0 ∧
    ¬ vma_to_int 0 < 0 := by
  decide

/-- C10 (amended): for a relocation with overflow policy signed or bitfield,
zero addend, not pc-relative and scale shift 0, let `k` be the top bit of
`dst_mask >> bitpos`. If the field extracted from the stored word,
`(word & src_mask) >> bitpos`, has bit `k` set, then `get_reloc_offset` returns
a value that is negative as a 64-bit two's-complement integer, in which every
bit from `k` to 63 is set and every bit of the field is kept; when
`dst_mask >> bitpos` is the contiguous mask `2^(k+1) - 1` the value is the
field with the bits from `k` up set, `field | (2^64 - 2^k)`. -/
theorem C10_signed_field_negative (ss : supersect) (reloc : arelent) (adjust_pc : Bool) (k : Nat)
    (hpol : reloc.howto.complain_on_overflow = complain_overflow_signed ∨
      reloc.howto.complain_on_overflow = complain_overflow_bitfield)
    (hadd : reloc.addend = 0)
    (hpc : reloc.howto.pc_relative = false)
    (hrs : reloc.howto.rightshift = 0)
    (hk : ((reloc.howto.dst_mask % vma_mod) >>> reloc.howto.bitpos).testBit k = true)
    (hk2 : (reloc.howto.dst_mask % vma_mod) >>> reloc.howto.bitpos < 2 ^ (k + 1))
    (htop : (((bfd_get (reloc.howto.size * 8) ss.big_endian ss.contents reloc.address) &&&
      reloc.howto.src_mask) >>> reloc.howto.bitpos).testBit k = true) :
    ∃ r, get_reloc_offset ss reloc adjust_pc = some r ∧ vma_to_int r < 0 ∧
      (∀ j, k ≤ j → j < 64 → r.testBit j = true) ∧
      (∀ j, (((bfd_get (reloc.howto.size * 8) ss.big_endian ss.contents reloc.address) &&&
        reloc.howto.src_mask) >>> reloc.howto.bitpos).testBit j = true → r.testBit j = true) ∧
      ((reloc.howto.dst_mask % vma_mod) >>> reloc.howto.bitpos = 2 ^ (k + 1) - 1 →
        r = (((bfd_get (reloc.howto.size * 8) ss.big_endian ss.contents reloc.address) &&&
          reloc.howto.src_mask) >>> reloc.howto.bitpos) ||| (vma_mod - 2 ^ k)) := by
  have hW := bfd_get_lt (reloc.howto.size * 8) ss.big_endian ss.contents reloc.address
  generalize hWdef : bfd_get (reloc.howto.size * 8) ss.big_endian ss.contents reloc.address = W
    at hW htop
  have hx : (W &&& reloc.howto.src_mask) >>> reloc.howto.bitpos < vma_mod :=
    lt_of_le_of_lt (le_trans (shiftRight_le_self _ _) Nat.and_le_left) hW
  have hs : (reloc.howto.dst_mask % vma_mod) >>> reloc.howto.bitpos < vma_mod :=
    lt_of_le_of_lt (shiftRight_le_self _ _) (Nat.mod_lt _ (by decide))
  generalize hxdef : (W &&& reloc.howto.src_mask) >>> reloc.howto.bitpos = x at hx htop
  generalize hsdef : (reloc.howto.dst_mask % vma_mod) >>> reloc.howto.bitpos = s at hs hk hk2
  obtain ⟨hlt, hbits⟩ := sign_extend_bits x s k hx hs hk hk2 htop
  have hk64 : k < 64 := by
    have h1 := Nat.testBit_implies_ge hk
    have h2 : 2 ^ k < 2 ^ 64 := lt_of_le_of_lt h1 hs
    exact (Nat.pow_lt_pow_iff_right (by decide)).mp h2
  have hres : get_reloc_offset ss reloc adjust_pc =
      some (x ||| vma_neg (x &&& (s &&& vma_not (s >>> 1)))) := by
    unfold get_reloc_offset
    rcases hpol with hpol | hpol <;>
      simp [hWdef, hxdef, hsdef, hpol, hadd, hpc, hrs, Nat.mod_eq_of_lt hlt]
  refine ⟨_, hres, ?_, hbits, ?_, ?_⟩
  · have h63 := Nat.testBit_implies_ge (hbits 63 (by omega) (by decide))
    unfold vma_to_int
    rw [Nat.mod_eq_of_lt hlt]
    unfold vma_mod at hlt
    rw [if_neg (by omega)]
    omega
  · intro j hj
    rw [Nat.testBit_or, hj]
    rfl
  · intro hc
    rw [hc, signbit_contiguous k hk64, and_two_pow_of_testBit x k htop, vma_neg_two_pow k hk64]

/-- C10 (amended) at a signed 32-bit field stored in place that holds `-4`. -/
theorem C10_signed_field_negative_witness :
    get_reloc_offset (bytes_ss false [0xfc, 0xff, 0xff, 0xff]) (reloc_at_zero howto_rel32)
      true = some 0xfffffffffffffffc ∧
    ∃ r, get_reloc_offset (bytes_ss false [0xfc, 0xff, 0xff, 0xff]) (reloc_at_zero howto_rel32)
      true = some r ∧ vma_to_int r < 0 :=
  ⟨by decide,
   match C10_signed_field_negative (bytes_ss false [0xfc, 0xff, 0xff, 0xff])
      (reloc_at_zero howto_rel32) true 31 (Or.inl (by decide)) (by decide) (by decide)
      (by decide) (by decide) (by decide) (by decide) with
   | ⟨r, h1, h2, _⟩ => ⟨r, h1, h2⟩⟩

/-! ## Relocation-set equality -/

theorem relocs_equal_at_non_rodata (old_sym new_sym : asymbol) (oo no : Nat)
    (h : starts_with old_sym.sect.name ".rodata" = false) :
    relocs_equal_at old_sym new_sym oo no = true ↔
      old_sym.sect.name = new_sym.sect.name ∧
        (old_sym.value + oo) % vma_mod = (new_sym.value + no) % vma_mod := by
  unfold relocs_equal_at
  by_cases hn : old_sym.sect.name = new_sym.sect.name
  · rw [hn] at h
    by_cases hv : (old_sym.value + oo) % vma_mod = (new_sym.value + no) % vma_mod
    · simp [hn, hv, h]
    · simp [hn, hv, h]
  · simp [hn]

/-- C6: `relocs_equal` returns false when the two relocation lists differ in
length; for equally long lists in which every relocation references a section
whose name does not start with `.rodata`, it returns true if and only if at
every index both offsets decode, the two referenced sections have the same name
and `sym.value + offset` agrees modulo `2^64` on the two sides. -/
theorem C6_relocs_equal_non_rodata (oldsbfd newsbfd : superbfd) (oldp newp : asection) :
    (oldp.relocs.length ≠ newp.relocs.length →
      relocs_equal oldsbfd oldp newsbfd newp = some false) ∧
    (oldp.relocs.length = newp.relocs.length →
      (∀ r ∈ oldp.relocs, starts_with r.sym.sect.name ".rodata" = false) →
      (∀ r ∈ newp.relocs, starts_with r.sym.sect.name ".rodata" = false) →
      (relocs_equal oldsbfd oldp newsbfd newp = some true ↔
        ∀ (i : Nat) (h1 : i < oldp.relocs.length) (h2 : i < newp.relocs.length),
          ∃ oo no,
            get_reloc_offset (fetch_supersect oldsbfd oldp) oldp.relocs[i] true = some oo ∧
            get_reloc_offset (fetch_supersect newsbfd newp) newp.relocs[i] true = some no ∧
            oldp.relocs[i].sym.sect.name = newp.relocs[i].sym.sect.name ∧
            (oldp.relocs[i].sym.value + oo) % vma_mod =
              (newp.relocs[i].sym.value + no) % vma_mod)) := by
  constructor
  · intro h
    unfold relocs_equal
    simp [fetch_supersect, h]
  · intro hlen hold _
    unfold relocs_equal
    have hl : ¬ (fetch_supersect oldsbfd oldp).relocs.length ≠
        (fetch_supersect newsbfd newp).relocs.length := by
      simpa [fetch_supersect] using hlen
    simp only [hl, if_false]
    rw [relocs_equal_loop_eq_true_iff _ _ _ _ (by simpa [fetch_supersect] using hlen)]
    constructor
    · intro h i h1 h2
      obtain ⟨oo, no, e1, e2, e3⟩ := h i h1 h2
      have hr := hold oldp.relocs[i] (List.getElem_mem _)
      exact ⟨oo, no, e1, e2, (relocs_equal_at_non_rodata _ _ oo no hr).mp e3⟩
    · intro h i h1 h2
      obtain ⟨oo, no, e1, e2, e3⟩ := h i h1 h2
      have hr := hold oldp.relocs[i] (List.getElem_mem _)
      exact ⟨oo, no, e1, e2, (relocs_equal_at_non_rodata _ _ oo no hr).mpr e3⟩

/-- C6 at two text sections whose relocations name different symbols of `.data`
(`a` at 4 with stored offset 0, `b` at 0 with stored offset 4): the lists are
judged equal, and the characterisation holds at that input. -/
theorem C6_relocs_equal_non_rodata_witness :
    relocs_equal ⟨false, [text_to_data 0 "a" 4]⟩ (text_to_data 0 "a" 4)
      ⟨false, [text_to_data 4 "b" 0]⟩ (text_to_data 4 "b" 0) = some true ∧
    ∃ oo no,
      get_reloc_offset (fetch_supersect ⟨false, [text_to_data 0 "a" 4]⟩ (text_to_data 0 "a" 4))
        (text_to_data 0 "a" 4).relocs[0] true = some oo ∧
      get_reloc_offset (fetch_supersect ⟨false, [text_to_data 4 "b" 0]⟩ (text_to_data 4 "b" 0))
        (text_to_data 4 "b" 0).relocs[0] true = some no ∧
      (text_to_data 0 "a" 4).relocs[0].sym.sect.name =
        (text_to_data 4 "b" 0).relocs[0].sym.sect.name ∧
      ((text_to_data 0 "a" 4).relocs[0].sym.value + oo) % vma_mod =
        ((text_to_data 4 "b" 0).relocs[0].sym.value + no) % vma_mod :=
  ⟨by decide,
   ((C6_relocs_equal_non_rodata ⟨false, [text_to_data 0 "a" 4]⟩ ⟨false, [text_to_data 4 "b" 0]⟩
      (text_to_data 0 "a" 4) (text_to_data 4 "b" 0)).2 (by decide) (by decide) (by decide)).mp
      (by decide) 0 (by decide) (by decide)⟩

theorem relocs_equal_at_rodata_str (old_sym new_sym : asymbol) (oo no : Nat)
    (hname : old_sym.sect.name = new_sym.sect.name)
    (hstr : starts_with old_sym.sect.name ".rodata.str" = true) :
    relocs_equal_at old_sym new_sym oo no =
      if oo < old_sym.sect.contents.length ∧ no < new_sym.sect.contents.length then
        decide (c_string old_sym.sect.contents ((old_sym.value + oo) % vma_mod) =
          c_string new_sym.sect.contents ((new_sym.value + no) % vma_mod))
      else decide (old_sym.sect.contents = new_sym.sect.contents) := by
  have hro := starts_with_rodata_of_str _ hstr
  rw [hname] at hro hstr
  have hmem : ∀ a b : List Nat, (a.length = b.length ∧ memcmp_eq a b a.length = true) ↔
      a = b := by
    intro a b
    constructor
    · rintro ⟨hl, hm⟩
      unfold memcmp_eq at hm
      rw [List.take_length, hl, List.take_length] at hm
      simpa using hm
    · rintro rfl
      exact ⟨rfl, memcmp_eq_self _ _⟩
  unfold relocs_equal_at
  by_cases h1 : oo < old_sym.sect.contents.length
  · by_cases h2 : no < new_sym.sect.contents.length
    · simp [hname, hro, hstr, h1, h2]
    · by_cases hc : old_sym.sect.contents = new_sym.sect.contents
      · simp [hname, hro, hstr, h1, h2, hc, memcmp_eq_self]
      · have := (hmem old_sym.sect.contents new_sym.sect.contents).not.mpr hc
        simp only [not_and, Bool.not_eq_true] at this
        by_cases hl : old_sym.sect.contents.length = new_sym.sect.contents.length
        · simp [hname, hro, hstr, h1, h2, hc, hl, this hl]
          rw [← hl]; simp [this hl]
        · simp [hname, hro, hstr, h1, h2, hc, hl]
  · by_cases hc : old_sym.sect.contents = new_sym.sect.contents
    · simp [hname, hro, hstr, h1, hc, memcmp_eq_self]
    · have := (hmem old_sym.sect.contents new_sym.sect.contents).not.mpr hc
      simp only [not_and, Bool.not_eq_true] at this
      by_cases hl : old_sym.sect.contents.length = new_sym.sect.contents.length
      · simp [hname, hro, hstr, h1, hc, hl, this hl]
        rw [← hl]; simp [this hl]
      · simp [hname, hro, hstr, h1, hc, hl]

/-- The function `relocs_equal` returns true exactly when the lists are equally
long and, at every index, both offsets decode and the loop body falls
through. -/
theorem relocs_equal_eq_true_iff (oldsbfd newsbfd : superbfd) (oldp newp : asection) :
    relocs_equal oldsbfd oldp newsbfd newp = some true ↔
      oldp.relocs.length = newp.relocs.length ∧
      ∀ (i : Nat) (h1 : i < oldp.relocs.length) (h2 : i < newp.relocs.length),
        ∃ oo no,
          get_reloc_offset (fetch_supersect oldsbfd oldp) oldp.relocs[i] true = some oo ∧
          get_reloc_offset (fetch_supersect newsbfd newp) newp.relocs[i] true = some no ∧
          relocs_equal_at oldp.relocs[i].sym newp.relocs[i].sym oo no = true := by
  unfold relocs_equal
  by_cases hlen : oldp.relocs.length = newp.relocs.length
  · have hl : ¬ (fetch_supersect oldsbfd oldp).relocs.length ≠
        (fetch_supersect newsbfd newp).relocs.length := by
      simpa [fetch_supersect] using hlen
    simp only [hl, if_false]
    have key := relocs_equal_loop_eq_true_iff (fetch_supersect oldsbfd oldp)
      (fetch_supersect newsbfd newp) oldp.relocs newp.relocs hlen
    constructor
    · intro h
      exact ⟨hlen, key.mp h⟩
    · intro h
      exact key.mpr h.2
  · simp [fetch_supersect, hlen]

/-- C7: in `relocs_equal`, for a relocation pair that references same-named
sections whose name starts with `.rodata.str`: when both decoded offsets are
below the content length of their section, and the two reads at
`sym.value + offset` are inside the content and NUL-terminated, the pair is
equal if and only if the NUL-terminated strings at `sym.value + offset` are
equal; when either offset is at or beyond its content length, the pair is
equal if and only if the two referenced sections have the same length and the
same bytes. Two sections whose relocation lists are equally long and whose
relocations all resolve, in range and by reads inside the content, to equal
strings of same-named string-literal sections are judged equal by
`relocs_equal`. -/
theorem C7_relocs_equal_string_literals (old_sym new_sym : asymbol)
    (old_offset new_offset : Nat)
    (hname : old_sym.sect.name = new_sym.sect.name)
    (hstr : starts_with old_sym.sect.name ".rodata.str" = true) :
    (old_offset < old_sym.sect.contents.length ∧ new_offset < new_sym.sect.contents.length →
      c_string_ok old_sym.sect.contents ((old_sym.value + old_offset) % vma_mod) = true →
      c_string_ok new_sym.sect.contents ((new_sym.value + new_offset) % vma_mod) = true →
      (relocs_equal_at old_sym new_sym old_offset new_offset = true ↔
        c_string old_sym.sect.contents ((old_sym.value + old_offset) % vma_mod) =
          c_string new_sym.sect.contents ((new_sym.value + new_offset) % vma_mod))) ∧
    (¬ (old_offset < old_sym.sect.contents.length ∧
        new_offset < new_sym.sect.contents.length) →
      (relocs_equal_at old_sym new_sym old_offset new_offset = true ↔
        old_sym.sect.contents.length = new_sym.sect.contents.length ∧
          old_sym.sect.contents = new_sym.sect.contents)) ∧
    (∀ (oldsbfd newsbfd : superbfd) (oldp newp : asection),
      relocs_equal oldsbfd oldp newsbfd newp = some true ↔
        oldp.relocs.length = newp.relocs.length ∧
        ∀ (i : Nat) (h1 : i < oldp.relocs.length) (h2 : i < newp.relocs.length),
          ∃ oo no,
            get_reloc_offset (fetch_supersect oldsbfd oldp) oldp.relocs[i] true = some oo ∧
            get_reloc_offset (fetch_supersect newsbfd newp) newp.relocs[i] true = some no ∧
            relocs_equal_at oldp.relocs[i].sym newp.relocs[i].sym oo no = true) ∧
    (∀ (oldsbfd newsbfd : superbfd) (oldp newp : asection),
      oldp.relocs.length = newp.relocs.length →
      (∀ (i : Nat) (h1 : i < oldp.relocs.length) (h2 : i < newp.relocs.length),
        ∃ oo no,
          get_reloc_offset (fetch_supersect oldsbfd oldp) oldp.relocs[i] true = some oo ∧
          get_reloc_offset (fetch_supersect newsbfd newp) newp.relocs[i] true = some no ∧
          oldp.relocs[i].sym.sect.name = newp.relocs[i].sym.sect.name ∧
          starts_with oldp.relocs[i].sym.sect.name ".rodata.str" = true ∧
          oo < oldp.relocs[i].sym.sect.contents.length ∧
          no < newp.relocs[i].sym.sect.contents.length ∧
          c_string_ok oldp.relocs[i].sym.sect.contents
            ((oldp.relocs[i].sym.value + oo) % vma_mod) = true ∧
          c_string_ok newp.relocs[i].sym.sect.contents
            ((newp.relocs[i].sym.value + no) % vma_mod) = true ∧
          c_string oldp.relocs[i].sym.sect.contents ((oldp.relocs[i].sym.value + oo) % vma_mod) =
            c_string newp.relocs[i].sym.sect.contents
              ((newp.relocs[i].sym.value + no) % vma_mod)) →
      relocs_equal oldsbfd oldp newsbfd newp = some true) := by
  refine ⟨?_, ?_, relocs_equal_eq_true_iff, ?_⟩
  · intro h _ _
    rw [relocs_equal_at_rodata_str _ _ _ _ hname hstr, if_pos h]
    simp
  · intro h
    rw [relocs_equal_at_rodata_str _ _ _ _ hname hstr, if_neg h]
    simp only [decide_eq_true_eq]
    constructor
    · intro e
      exact ⟨by rw [e], e⟩
    · intro e
      exact e.2
  · intro oldsbfd newsbfd oldp newp hlen h
    rw [relocs_equal_eq_true_iff]
    refine ⟨hlen, ?_⟩
    intro i h1 h2
    obtain ⟨oo, no, e1, e2, e3, e4, e5, e6, _, _, e7⟩ := h i h1 h2
    refine ⟨oo, no, e1, e2, ?_⟩
    rw [relocs_equal_at_rodata_str _ _ _ _ e3 e4, if_pos ⟨e5, e6⟩]
    simpa using e7

/-- C7 at two string-literal sections with different layouts, `ab\0cd\0` and
`cd\0ab\0`: the reads at offsets 3 and 0 are inside the content, both read
`cd`, and the pair is equal; the pair of offsets 3 and 9, the second out of
range, is compared by whole sections and is unequal; a text section whose
relocation reads `cd` in both objects is judged equal. -/
theorem C7_relocs_equal_string_literals_witness :
    c_string_ok (str_symbol [97, 98, 0, 99, 100, 0]).sect.contents 3 = true ∧
    c_string_ok (str_symbol [99, 100, 0, 97, 98, 0]).sect.contents 0 = true ∧
    relocs_equal_at (str_symbol [97, 98, 0, 99, 100, 0]) (str_symbol [99, 100, 0, 97, 98, 0])
      3 0 = true ∧
    ¬ relocs_equal_at (str_symbol [97, 98, 0, 99, 100, 0]) (str_symbol [99, 100, 0, 97, 98, 0])
      3 9 = true ∧
    relocs_equal ⟨false, [text_to_sym (str_symbol [97, 98, 0, 99, 100, 0]) 3]⟩
      (text_to_sym (str_symbol [97, 98, 0, 99, 100, 0]) 3)
      ⟨false, [text_to_sym (str_symbol [99, 100, 0, 97, 98, 0]) 0]⟩
      (text_to_sym (str_symbol [99, 100, 0, 97, 98, 0]) 0) = some true :=
  ⟨by decide, by decide,
   ((C7_relocs_equal_string_literals (str_symbol [97, 98, 0, 99, 100, 0])
      (str_symbol [99, 100, 0, 97, 98, 0]) 3 0 (by decide) (by decide)).1
      ⟨by decide, by decide⟩ (by decide) (by decide)).mpr (by decide),
   fun h => absurd (((C7_relocs_equal_string_literals (str_symbol [97, 98, 0, 99, 100, 0])
      (str_symbol [99, 100, 0, 97, 98, 0]) 3 9 (by decide) (by decide)).2.1
      (by decide)).mp h).2 (by decide),
   by decide⟩

/-! ## Pass B: changed text sections -/

theorem length_and_memcmp_iff (a b : List Nat) :
    (decide (a.length = b.length) && memcmp_eq a b a.length) = true ↔ a = b := by
  constructor
  · intro h
    simp only [Bool.and_eq_true, decide_eq_true_eq] at h
    obtain ⟨hl, hm⟩ := h
    unfold memcmp_eq at hm
    rw [List.take_length, hl, List.take_length] at hm
    simpa using hm
  · rintro rfl
    simp [memcmp_eq_self]

theorem bfd_get_section_by_name_mem (sbfd : superbfd) (name : String) (s : asection)
    (h : bfd_get_section_by_name sbfd name = some s) : s ∈ sbfd.sections :=
  List.mem_of_find?_eq_some h

/-- When every relocation of both objects decodes, `relocs_equal` returns for a
section of the old object and a section of the new one. -/
theorem relocs_equal_isSome (oldsbfd newsbfd : superbfd) (oldp newp : asection)
    (hold : decodes_ok oldsbfd = true) (hnew : decodes_ok newsbfd = true)
    (ho : oldp ∈ oldsbfd.sections) (hn : newp ∈ newsbfd.sections) :
    (relocs_equal oldsbfd oldp newsbfd newp).isSome = true := by
  unfold decodes_ok at hold hnew
  rw [List.all_eq_true] at hold hnew
  have h1 := hold oldp ho
  have h2 := hnew newp hn
  rw [List.all_eq_true] at h1 h2
  unfold relocs_equal
  by_cases hlen : (fetch_supersect oldsbfd oldp).relocs.length ≠
      (fetch_supersect newsbfd newp).relocs.length
  · simp [hlen]
  · simp only [hlen, if_false]
    exact relocs_equal_loop_isSome _ _ _ _ h1 h2

/-- Every section `foreach_nonmatching` reports satisfies the condition of
Pass B, whether or not the run aborts later. -/
theorem foreach_nonmatching_loop_sound (oldsbfd newsbfd : superbfd) (l : List asection)
    (S : asection) (h : S ∈ (foreach_nonmatching_loop oldsbfd newsbfd l).called) :
    S ∈ l ∧ spec_nonmatching oldsbfd newsbfd S := by
  induction l with
  | nil => simp [foreach_nonmatching_loop] at h
  | cons newp rest ih =>
    have lift : S ∈ (foreach_nonmatching_loop oldsbfd newsbfd rest).called →
        S ∈ newp :: rest ∧ spec_nonmatching oldsbfd newsbfd S :=
      fun hm => ⟨List.mem_cons_of_mem _ (ih hm).1, (ih hm).2⟩
    unfold foreach_nonmatching_loop at h
    by_cases ht : starts_with newp.name ".text" = true
    · simp only [ht, Bool.not_true, Bool.false_eq_true, if_false] at h
      cases hf : bfd_get_section_by_name oldsbfd newp.name with
      | none =>
        simp only [hf] at h
        exact lift h
      | some oldp =>
        simp only [hf] at h
        by_cases hc : (decide ((fetch_supersect newsbfd newp).contents.length =
            (fetch_supersect oldsbfd oldp).contents.length) &&
            memcmp_eq (fetch_supersect newsbfd newp).contents
              (fetch_supersect oldsbfd oldp).contents
              (fetch_supersect newsbfd newp).contents.length) = true
        · rw [if_pos hc] at h
          cases hre : relocs_equal oldsbfd oldp newsbfd newp with
          | none => simp [hre] at h
          | some b =>
            cases b with
            | true =>
              simp only [hre] at h
              exact lift h
            | false =>
              simp only [hre, List.mem_cons] at h
              rcases h with rfl | h
              · refine ⟨List.mem_cons_self _ _, ht, oldp, hf, ?_⟩
                rintro ⟨_, _, h3⟩
                rw [hre] at h3
                cases h3
              · exact lift h
        · rw [if_neg hc] at h
          simp only [List.mem_cons] at h
          rcases h with rfl | h
          · refine ⟨List.mem_cons_self _ _, ht, oldp, hf, ?_⟩
            rintro ⟨_, h2, _⟩
            exact hc ((length_and_memcmp_iff _ _).mpr h2)
          · exact lift h
    · simp only [ht, Bool.not_false, if_true] at h
      exact lift h

/-- When every relocation of both objects decodes, `foreach_nonmatching` does
not abort and reports every section that satisfies the condition of Pass B. -/
theorem foreach_nonmatching_loop_complete (oldsbfd newsbfd : superbfd) (l : List asection)
    (hold : decodes_ok oldsbfd = true) (hnew : decodes_ok newsbfd = true)
    (hl : ∀ s ∈ l, s ∈ newsbfd.sections) :
    (foreach_nonmatching_loop oldsbfd newsbfd l).aborted = false ∧
    ∀ S, S ∈ l → spec_nonmatching oldsbfd newsbfd S →
      S ∈ (foreach_nonmatching_loop oldsbfd newsbfd l).called := by
  induction l with
  | nil => simp [foreach_nonmatching_loop]
  | cons newp rest ih =>
    obtain ⟨iha, ihc⟩ := ih (fun s hs => hl s (List.mem_cons_of_mem _ hs))
    unfold foreach_nonmatching_loop
    by_cases ht : starts_with newp.name ".text" = true
    · simp only [ht, Bool.not_true, Bool.false_eq_true, if_false]
      cases hf : bfd_get_section_by_name oldsbfd newp.name with
      | none =>
        simp only []
        refine ⟨iha, ?_⟩
        intro S hS hcond
        rcases List.mem_cons.mp hS with rfl | hS
        · obtain ⟨_, oldp, h1, _⟩ := hcond
          rw [hf] at h1
          cases h1
        · exact ihc S hS hcond
      | some oldp =>
        simp only []
        have hsome := relocs_equal_isSome oldsbfd newsbfd oldp newp hold hnew
          (bfd_get_section_by_name_mem _ _ _ hf) (hl newp (List.mem_cons_self _ _))
        by_cases hc : (decide ((fetch_supersect newsbfd newp).contents.length =
            (fetch_supersect oldsbfd oldp).contents.length) &&
            memcmp_eq (fetch_supersect newsbfd newp).contents
              (fetch_supersect oldsbfd oldp).contents
              (fetch_supersect newsbfd newp).contents.length) = true
        · rw [if_pos hc]
          cases hre : relocs_equal oldsbfd oldp newsbfd newp with
          | none => simp [hre] at hsome
          | some b =>
            cases b with
            | true =>
              simp only []
              refine ⟨iha, ?_⟩
              intro S hS hcond
              rcases List.mem_cons.mp hS with rfl | hS
              · obtain ⟨_, oldp2, h1, h2⟩ := hcond
                rw [hf] at h1
                cases h1
                have hceq := (length_and_memcmp_iff _ _).mp hc
                exact absurd ⟨by rw [show S.contents = oldp.contents from hceq], hceq, hre⟩ h2
              · exact ihc S hS hcond
            | false =>
              simp only []
              refine ⟨iha, ?_⟩
              intro S hS hcond
              rcases List.mem_cons.mp hS with rfl | hS
              · exact List.mem_cons_self _ _
              · exact List.mem_cons_of_mem _ (ihc S hS hcond)
        · rw [if_neg hc]
          refine ⟨iha, ?_⟩
          intro S hS hcond
          rcases List.mem_cons.mp hS with rfl | hS
          · exact List.mem_cons_self _ _
          · exact List.mem_cons_of_mem _ (ihc S hS hcond)
    · simp only [ht, Bool.not_false, if_true]
      refine ⟨iha, ?_⟩
      intro S hS hcond
      rcases List.mem_cons.mp hS with rfl | hS
      · exact absurd hcond.1 ht
      · exact ihc S hS hcond

/-- C5 as stated fails: in `text_rodata_obj howto_dont32 [1]`, diffed against
itself, the text section satisfies the condition of Pass B (its name starts
with `.text`, the old object has a section of that name, and `relocs_equal`
does not hold for the pair because the decode of its relocation aborts), yet
the callback is not invoked on it: the run aborts first. -/
theorem C5_counterexample :
    text_to_rodata howto_dont32 [1] ∈ (text_rodata_obj howto_dont32 [1]).sections ∧
    spec_nonmatching (text_rodata_obj howto_dont32 [1]) (text_rodata_obj howto_dont32 [1])
      (text_to_rodata howto_dont32 [1]) ∧
    relocs_equal (text_rodata_obj howto_dont32 [1]) (text_to_rodata howto_dont32 [1])
      (text_rodata_obj howto_dont32 [1]) (text_to_rodata howto_dont32 [1]) = none ∧
    foreach_nonmatching (text_rodata_obj howto_dont32 [1]) (text_rodata_obj howto_dont32 [1]) =
      ⟨[], true⟩ ∧
    text_to_rodata howto_dont32 [1] ∉
      (foreach_nonmatching (text_rodata_obj howto_dont32 [1])
        (text_rodata_obj howto_dont32 [1])).called :=
  ⟨by decide,
   ⟨by decide, text_to_rodata howto_dont32 [1], by decide, fun h => absurd h.2.2 (by decide)⟩,
   by decide, by decide, by decide⟩

/-- C5 (amended): when every relocation of the two objects decodes without
aborting, `foreach_nonmatching` runs to its end and invokes its callback on a
section `S` of the new object if and only if the name of `S` starts with
`.text`, the old object contains a section with the same name, and it is not
the case that the two content lengths are equal, the bytes are identical and
`relocs_equal` holds for the pair; a section with no same-named section in the
old object is not reported. -/
theorem C5_foreach_nonmatching_reports (oldsbfd newsbfd : superbfd) (S : asection)
    (hold : decodes_ok oldsbfd = true) (hnew : decodes_ok newsbfd = true) :
    (foreach_nonmatching oldsbfd newsbfd).aborted = false ∧
    (S ∈ (foreach_nonmatching oldsbfd newsbfd).called ↔
      S ∈ newsbfd.sections ∧ spec_nonmatching oldsbfd newsbfd S) ∧
    (bfd_get_section_by_name oldsbfd S.name = none →
      S ∉ (foreach_nonmatching oldsbfd newsbfd).called) := by
  have hc := foreach_nonmatching_loop_complete oldsbfd newsbfd newsbfd.sections hold hnew
    (fun _ h => h)
  unfold foreach_nonmatching
  refine ⟨hc.1, ⟨?_, ?_⟩, ?_⟩
  · exact foreach_nonmatching_loop_sound oldsbfd newsbfd newsbfd.sections S
  · rintro ⟨h1, h2⟩
    exact hc.2 S h1 h2
  · intro hnone hmem
    obtain ⟨_, _, oldp, h1, _⟩ :=
      foreach_nonmatching_loop_sound oldsbfd newsbfd newsbfd.sections S hmem
    rw [hnone] at h1
    cases h1

/-- C5 (amended) at `text_rodata_obj howto_abs32 [1]` against
`text_rodata_obj howto_abs32 [2]`: the run does not abort and the text section,
whose relocation references the changed `.rodata`, is reported. -/
theorem C5_foreach_nonmatching_reports_witness :
    (foreach_nonmatching (text_rodata_obj howto_abs32 [1])
      (text_rodata_obj howto_abs32 [2])).aborted = false ∧
    text_to_rodata howto_abs32 [2] ∈
      (foreach_nonmatching (text_rodata_obj howto_abs32 [1])
        (text_rodata_obj howto_abs32 [2])).called :=
  ⟨(C5_foreach_nonmatching_reports (text_rodata_obj howto_abs32 [1])
      (text_rodata_obj howto_abs32 [2]) (text_to_rodata howto_abs32 [2])
      (by decide) (by decide)).1,
   (C5_foreach_nonmatching_reports (text_rodata_obj howto_abs32 [1])
      (text_rodata_obj howto_abs32 [2]) (text_to_rodata howto_abs32 [2])
      (by decide) (by decide)).2.1.mpr
      ⟨by decide, by decide, text_to_rodata howto_abs32 [1], by decide,
        fun h => absurd h.2.2 (by decide)⟩⟩

/-! ## Rodata propagation -/

theorem relocs_equal_at_rodata_generic (old_sym new_sym : asymbol) (oo no : Nat)
    (hname : old_sym.sect.name = new_sym.sect.name)
    (hro : starts_with old_sym.sect.name ".rodata" = true)
    (hnstr : starts_with old_sym.sect.name ".rodata.str" = false) :
    relocs_equal_at old_sym new_sym oo no =
      decide (old_sym.sect.contents = new_sym.sect.contents) := by
  rw [hname] at hro hnstr
  have hm := length_and_memcmp_iff old_sym.sect.contents new_sym.sect.contents
  unfold relocs_equal_at
  by_cases hc : old_sym.sect.contents = new_sym.sect.contents
  · simp [hname, hro, hnstr, hc, memcmp_eq_self]
  · have hm2 := hm.not.mpr hc
    simp only [Bool.and_eq_true, decide_eq_true_eq, not_and, Bool.not_eq_true] at hm2
    by_cases hl : old_sym.sect.contents.length = new_sym.sect.contents.length
    · have := hm2 hl
      simp [hname, hro, hnstr, hc, hl]
      rw [← hl]
      simp [this]
    · simp [hname, hro, hnstr, hc, hl]

/-- C2 as stated fails: the text sections of `text_rodata_obj howto_dont32 [1]`
and `text_rodata_obj howto_dont32 [2]` have identical bytes and equally long
relocation lists, and at index 0 the two relocations reference same-named
`.rodata` sections that differ in a byte; yet `relocs_equal` does not return
false and the text section is not reported: the decode of the relocation
aborts. -/
theorem C2_counterexample :
    text_to_rodata howto_dont32 [2] ∈ (text_rodata_obj howto_dont32 [2]).sections ∧
    starts_with (text_to_rodata howto_dont32 [2]).name ".text" = true ∧
    bfd_get_section_by_name (text_rodata_obj howto_dont32 [1])
      (text_to_rodata howto_dont32 [2]).name = some (text_to_rodata howto_dont32 [1]) ∧
    (text_to_rodata howto_dont32 [2]).contents = (text_to_rodata howto_dont32 [1]).contents ∧
    (text_to_rodata howto_dont32 [1]).relocs.length =
      (text_to_rodata howto_dont32 [2]).relocs.length ∧
    (text_to_rodata howto_dont32 [1]).relocs[0].sym.sect.name =
      (text_to_rodata howto_dont32 [2]).relocs[0].sym.sect.name ∧
    starts_with (text_to_rodata howto_dont32 [1]).relocs[0].sym.sect.name ".rodata" = true ∧
    starts_with (text_to_rodata howto_dont32 [1]).relocs[0].sym.sect.name ".rodata.str" =
      false ∧
    (text_to_rodata howto_dont32 [1]).relocs[0].sym.sect.contents ≠
      (text_to_rodata howto_dont32 [2]).relocs[0].sym.sect.contents ∧
    relocs_equal (text_rodata_obj howto_dont32 [1]) (text_to_rodata howto_dont32 [1])
      (text_rodata_obj howto_dont32 [2]) (text_to_rodata howto_dont32 [2]) ≠ some false ∧
    text_to_rodata howto_dont32 [2] ∉
      (foreach_nonmatching (text_rodata_obj howto_dont32 [1])
        (text_rodata_obj howto_dont32 [2])).called := by
  decide

/-- C2 (amended): let every relocation of the two objects decode without
aborting. For a section of the new object whose name starts with `.text`, whose
bytes are identical to those of the same-named section of the old object and
whose relocation list has the same length: if at some index the two
relocations reference same-named sections whose name starts with `.rodata` but
not with `.rodata.str`, and the two referenced sections differ in length or
bytes, then `relocs_equal` returns false and `foreach_nonmatching` reports the
text section as changed. -/
theorem C2_rodata_change_propagates (oldsbfd newsbfd : superbfd) (oldp newp : asection)
    (i : Nat)
    (hold : decodes_ok oldsbfd = true) (hnew : decodes_ok newsbfd = true)
    (hmem : newp ∈ newsbfd.sections)
    (htext : starts_with newp.name ".text" = true)
    (hfind : bfd_get_section_by_name oldsbfd newp.name = some oldp)
    (_hbytes : newp.contents = oldp.contents)
    (_hlen : oldp.relocs.length = newp.relocs.length)
    (h1 : i < oldp.relocs.length) (h2 : i < newp.relocs.length)
    (hname : oldp.relocs[i].sym.sect.name = newp.relocs[i].sym.sect.name)
    (hro : starts_with oldp.relocs[i].sym.sect.name ".rodata" = true)
    (hnstr : starts_with oldp.relocs[i].sym.sect.name ".rodata.str" = false)
    (hdiff : oldp.relocs[i].sym.sect.contents ≠ newp.relocs[i].sym.sect.contents) :
    relocs_equal oldsbfd oldp newsbfd newp = some false ∧
    newp ∈ (foreach_nonmatching oldsbfd newsbfd).called := by
  have hne : relocs_equal oldsbfd oldp newsbfd newp ≠ some true := by
    intro h
    obtain ⟨_, hall⟩ := (relocs_equal_eq_true_iff _ _ _ _).mp h
    obtain ⟨oo, no, _, _, hat⟩ := hall i h1 h2
    rw [relocs_equal_at_rodata_generic _ _ oo no hname hro hnstr] at hat
    exact hdiff (by simpa using hat)
  have hsome := relocs_equal_isSome oldsbfd newsbfd oldp newp hold hnew
    (bfd_get_section_by_name_mem _ _ _ hfind) hmem
  have hfalse : relocs_equal oldsbfd oldp newsbfd newp = some false := by
    cases hre : relocs_equal oldsbfd oldp newsbfd newp with
    | none => simp [hre] at hsome
    | some b =>
      cases b with
      | true => exact absurd hre hne
      | false => rfl
  refine ⟨hfalse, ?_⟩
  unfold foreach_nonmatching
  refine (foreach_nonmatching_loop_complete oldsbfd newsbfd newsbfd.sections hold hnew
    (fun _ h => h)).2 newp hmem ⟨htext, oldp, hfind, ?_⟩
  rintro ⟨_, _, h3⟩
  exact hne h3

/-- C2 (amended) at `text_rodata_obj howto_abs32 [1]` against
`text_rodata_obj howto_abs32 [2]`: the byte of `.rodata` changed, the text
bytes did not; `relocs_equal` returns false and the text section is
reported. -/
theorem C2_rodata_change_propagates_witness :
    relocs_equal (text_rodata_obj howto_abs32 [1]) (text_to_rodata howto_abs32 [1])
      (text_rodata_obj howto_abs32 [2]) (text_to_rodata howto_abs32 [2]) = some false ∧
    text_to_rodata howto_abs32 [2] ∈
      (foreach_nonmatching (text_rodata_obj howto_abs32 [1])
        (text_rodata_obj howto_abs32 [2])).called :=
  C2_rodata_change_propagates (text_rodata_obj howto_abs32 [1])
    (text_rodata_obj howto_abs32 [2]) (text_to_rodata howto_abs32 [1])
    (text_to_rodata howto_abs32 [2]) 0 (by decide) (by decide) (by decide) (by decide)
    (by decide) (by decide) (by decide) (by decide) (by decide) (by decide) (by decide)
    (by decide) (by decide)

/-! ## Identity: diffing an object against itself -/

theorem find_by_name_of_nodup (l : List asection) (h : (l.map (fun s => s.name)).Nodup)
    (s : asection) (hs : s ∈ l) : l.find? (fun t => t.name == s.name) = some s := by
  induction l with
  | nil => cases hs
  | cons a rest ih =>
    rw [List.map_cons, List.nodup_cons] at h
    rcases List.mem_cons.mp hs with rfl | hs
    · simp [List.find?_cons]
    · have hne : a.name ≠ s.name := by
        intro e
        exact h.1 (e ▸ List.mem_map_of_mem (fun s => s.name) hs)
      have hb : (a.name == s.name) = false := by simpa using hne
      rw [List.find?_cons, hb]
      exact ih h.2 hs

theorem relocs_equal_self (sbfd : superbfd) (p : asection)
    (hdec : decodes_ok sbfd = true) (hp : p ∈ sbfd.sections) :
    relocs_equal sbfd p sbfd p = some true := by
  rw [relocs_equal_eq_true_iff]
  refine ⟨rfl, ?_⟩
  intro i h1 _
  unfold decodes_ok at hdec
  rw [List.all_eq_true] at hdec
  have h := hdec p hp
  rw [List.all_eq_true] at h
  obtain ⟨oo, hoo⟩ := Option.isSome_iff_exists.mp (h p.relocs[i] (List.getElem_mem _))
  exact ⟨oo, oo, hoo, hoo, relocs_equal_at_self _ _⟩

theorem print_section_symbol_renames_loop_self (sbfd : superbfd) (l : List asection)
    (h : ∀ s ∈ l, bfd_get_section_by_name sbfd s.name = some s) :
    print_section_symbol_renames_loop sbfd sbfd l = "\n" := by
  induction l with
  | nil => rfl
  | cons newp rest ih =>
    have ih2 := ih (fun s hs => h s (List.mem_cons_of_mem _ hs))
    unfold print_section_symbol_renames_loop
    rw [h newp (List.mem_cons_self _ _)]
    simp [ih2]

theorem compare_exports_self (es : List export_sym) (addstr : String) :
    compare_exports es es addstr = "" := by
  unfold compare_exports
  rw [compare_exports_loop_eq_spec]
  have hnil : es.filter (spec_export_unmatched es) = [] := by
    rw [List.filter_eq_nil_iff]
    intro e he
    simp only [spec_export_unmatched, decide_eq_true_eq]
    intro hall
    exact hall e he ⟨rfl, rfl⟩
  rw [hnil]
  rfl

/-- C3 as stated fails: every relocation of `twin_text_obj` decodes (it has
none), its export names resolve (it has none) and it makes no read outside a
section, yet diffed against itself
`foreach_nonmatching` invokes its callback on the second `.text` section, which
the lookup by name pairs with the first. -/
theorem C3_counterexample :
    decodes_ok twin_text_obj = true ∧
    get_export_syms twin_text_obj = some [] ∧
    reloc_fields_ok twin_text_obj = true ∧
    string_reads_ok twin_text_obj = true ∧
    export_names_ok twin_text_obj = true ∧
    foreach_nonmatching twin_text_obj twin_text_obj = ⟨[plain_section ".text" [2]], false⟩ := by
  decide

/-- C3 (amended): for an object whose section names are pairwise distinct,
whose relocations all decode without aborting, whose export tables are read
with every name resolved, and whose reads are all defined (every relocation
field and every export record lies inside its section content; the strings
that `relocs_equal` compares for its text sections and its export names lie
inside their section content and are NUL-terminated), diffing the object
against itself reports nothing: `print_section_symbol_renames` prints only the closing
newline, `foreach_nonmatching` and `foreach_new_section` invoke their callback
on no section, and `compare_exported_symbols` prints nothing for any prefix. -/
theorem C3_identity (o : superbfd)
    (hnodup : (o.sections.map (fun s => s.name)).Nodup)
    (hdec : decodes_ok o = true)
    (hexp : (get_export_syms o).isSome = true)
    (_hfields : reloc_fields_ok o = true)
    (_hstr : string_reads_ok o = true)
    (_hnames : export_names_ok o = true) :
    print_section_symbol_renames o o = "\n" ∧
    foreach_nonmatching o o = ⟨[], false⟩ ∧
    foreach_new_section o o = [] ∧
    ∀ addstr : String, compare_exported_symbols o o addstr = some "" := by
  have hfind : ∀ s ∈ o.sections, bfd_get_section_by_name o s.name = some s :=
    fun s hs => find_by_name_of_nodup o.sections hnodup s hs
  refine ⟨?_, ?_, ?_, ?_⟩
  · exact print_section_symbol_renames_loop_self o o.sections hfind
  · have hc := foreach_nonmatching_loop_complete o o o.sections hdec hdec (fun _ h => h)
    have hnil : (foreach_nonmatching_loop o o o.sections).called = [] := by
      rw [List.eq_nil_iff_forall_not_mem]
      intro S hS
      obtain ⟨hmem, _, oldp, h1, h2⟩ := foreach_nonmatching_loop_sound o o o.sections S hS
      rw [hfind S hmem] at h1
      cases h1
      exact h2 ⟨rfl, rfl, relocs_equal_self o S hdec hmem⟩
    unfold foreach_nonmatching
    cases hr : foreach_nonmatching_loop o o o.sections with
    | mk called aborted =>
      rw [hr] at hc hnil
      simp only at hc hnil
      rw [hc.1, hnil]
  · unfold foreach_new_section
    rw [List.eq_nil_iff_forall_not_mem]
    intro S hS
    obtain ⟨hmem, _, _, hall⟩ := (mem_foreach_new_section_loop_iff o o o.sections S).mp hS
    exact (hall S hmem).1 rfl
  · intro addstr
    obtain ⟨es, hes⟩ := Option.isSome_iff_exists.mp hexp
    unfold compare_exported_symbols
    simp only [hes]
    rw [compare_exports_self]

/-- C3 (amended) at `full_obj`, an object with a text section that references
read-only data, a text section that reads a string literal inside its section,
and an export table. -/
theorem C3_identity_witness :
    print_section_symbol_renames full_obj full_obj = "\n" ∧
    foreach_nonmatching full_obj full_obj = ⟨[], false⟩ ∧
    foreach_new_section full_obj full_obj = [] ∧
    ∀ addstr : String, compare_exported_symbols full_obj full_obj addstr = some "" :=
  C3_identity full_obj (by decide) (by decide) (by decide) (by decide) (by decide)
    (by decide)

/-! ## The relocation resolver: abort and additions -/

/-- C11: `get_reloc_offset` aborts if and only if the overflow policy of the
relocation is none of signed, bitfield and unsigned; for each of those three
policies it returns a value, whatever the stored word, the addend and the
`adjust_pc` flag. -/
theorem C11_get_reloc_offset_aborts (ss : supersect) (reloc : arelent) (adjust_pc : Bool) :
    (get_reloc_offset ss reloc adjust_pc = none ↔
      reloc.howto.complain_on_overflow ≠ complain_overflow_signed ∧
      reloc.howto.complain_on_overflow ≠ complain_overflow_bitfield ∧
      reloc.howto.complain_on_overflow ≠ complain_overflow_unsigned) ∧
    (reloc.howto.complain_on_overflow = complain_overflow_signed ∨
      reloc.howto.complain_on_overflow = complain_overflow_bitfield ∨
      reloc.howto.complain_on_overflow = complain_overflow_unsigned →
      ∃ v, get_reloc_offset ss reloc adjust_pc = some v) := by
  unfold get_reloc_offset
  cases h : reloc.howto.complain_on_overflow <;> simp

/-- C11 at a stored word, with both values of `adjust_pc`: the policy `dont`
aborts, the policy `signed` returns. -/
theorem C11_get_reloc_offset_aborts_witness :
    get_reloc_offset (bytes_ss false [0xfc, 0xff, 0xff, 0xff]) (reloc_at_zero howto_dont32)
      true = none ∧
    ∃ v, get_reloc_offset (bytes_ss false [0xfc, 0xff, 0xff, 0xff]) (reloc_at_zero howto_rel32)
      false = some v :=
  ⟨(C11_get_reloc_offset_aborts (bytes_ss false [0xfc, 0xff, 0xff, 0xff])
      (reloc_at_zero howto_dont32) true).1.mpr ⟨by decide, by decide, by decide⟩,
   (C11_get_reloc_offset_aborts (bytes_ss false [0xfc, 0xff, 0xff, 0xff])
      (reloc_at_zero howto_rel32) false).2 (Or.inl (by decide))⟩

/-- The function `get_reloc_offset` in terms of the decoded field, for an
accepted policy. -/
theorem get_reloc_offset_eq_field (ss : supersect) (reloc : arelent) (adjust_pc : Bool)
    (hpol : reloc.howto.complain_on_overflow ≠ complain_overflow_dont) :
    get_reloc_offset ss reloc adjust_pc =
      some ((spec_shifted_field ss reloc +
        (if reloc.howto.pc_relative then
          (if adjust_pc then
            ((if !reloc.howto.pcrel_offset then (reloc.addend % vma_mod + reloc.address) % vma_mod
              else reloc.addend % vma_mod) + reloc.howto.size) % vma_mod
          else (if !reloc.howto.pcrel_offset then
              (reloc.addend % vma_mod + reloc.address) % vma_mod
            else reloc.addend % vma_mod))
        else reloc.addend % vma_mod)) % vma_mod) := by
  unfold get_reloc_offset spec_shifted_field
  cases h : reloc.howto.complain_on_overflow
  all_goals simp_all

/-- C16: for a relocation with an accepted policy. When it is pc-relative,
`get_reloc_offset` with `adjust_pc` set is the value with `adjust_pc` clear plus
the byte width of the field, modulo `2^64`, and the value with `adjust_pc`
clear is the decoded field plus the addend, plus the address of the relocation
exactly when `pcrel_offset` is false. When it is not pc-relative, the result is
the decoded field plus the addend for either value of `adjust_pc`. -/
theorem C16_get_reloc_offset_additions (ss : supersect) (reloc : arelent)
    (hpol : reloc.howto.complain_on_overflow ≠ complain_overflow_dont) :
    (reloc.howto.pc_relative = true →
      ∃ v, get_reloc_offset ss reloc false = some v ∧
        get_reloc_offset ss reloc true = some ((v + reloc.howto.size) % vma_mod) ∧
        v = (spec_shifted_field ss reloc + reloc.addend +
          (if reloc.howto.pcrel_offset then 0 else reloc.address)) % vma_mod) ∧
    (reloc.howto.pc_relative = false →
      ∀ adjust_pc, get_reloc_offset ss reloc adjust_pc =
        some ((spec_shifted_field ss reloc + reloc.addend) % vma_mod)) := by
  constructor
  · intro hpc
    refine ⟨_, get_reloc_offset_eq_field ss reloc false hpol, ?_, ?_⟩
    · rw [get_reloc_offset_eq_field ss reloc true hpol]
      simp only [hpc, if_true, Bool.false_eq_true, if_false, vma_mod]
      congr 1
      cases reloc.howto.pcrel_offset
      all_goals (simp; omega)
    · simp only [hpc, if_true, Bool.false_eq_true, if_false, vma_mod]
      cases reloc.howto.pcrel_offset <;> simp
      omega
  · intro hpc adjust_pc
    rw [get_reloc_offset_eq_field ss reloc adjust_pc hpol]
    simp only [hpc, Bool.false_eq_true, if_false, vma_mod]
    congr 1
    omega

/-- C16 at a pc-relative 32-bit field that stores `-4` at address 0: the value
is `-4` with `adjust_pc` clear and `0` with `adjust_pc` set. -/
theorem C16_get_reloc_offset_additions_witness :
    get_reloc_offset (bytes_ss false [0xfc, 0xff, 0xff, 0xff]) (reloc_at_zero howto_pc32)
      false = some 0xfffffffffffffffc ∧
    get_reloc_offset (bytes_ss false [0xfc, 0xff, 0xff, 0xff]) (reloc_at_zero howto_pc32)
      true = some 0 ∧
    ∃ v, get_reloc_offset (bytes_ss false [0xfc, 0xff, 0xff, 0xff]) (reloc_at_zero howto_pc32)
        false = some v ∧
      get_reloc_offset (bytes_ss false [0xfc, 0xff, 0xff, 0xff]) (reloc_at_zero howto_pc32)
        true = some ((v + (reloc_at_zero howto_pc32).howto.size) % vma_mod) :=
  ⟨by decide, by decide,
   match (C16_get_reloc_offset_additions (bytes_ss false [0xfc, 0xff, 0xff, 0xff])
      (reloc_at_zero howto_pc32) (by decide)).1 (by decide) with
   | ⟨v, h1, h2, _⟩ => ⟨v, h1, h2⟩⟩

/-! ## The growable buffer -/

/-- C14: `vec_do_reserve`, when neither doubling overflows a `size_t`: if
`new_size > mem_size` or `2 * new_size < mem_size`, the allocation size becomes
exactly the larger of `new_size` and `2 * mem_size`; otherwise it is unchanged;
in every case the resulting allocation size is at least `new_size`. -/
theorem C14_vec_do_reserve (mem_size new_size : Nat)
    (hnew : new_size * 2 < vma_mod) (hmem : mem_size * 2 < vma_mod) :
    (new_size > mem_size ∨ 2 * new_size < mem_size →
      vec_do_reserve mem_size new_size = max new_size (2 * mem_size)) ∧
    (¬ (new_size > mem_size ∨ 2 * new_size < mem_size) →
      vec_do_reserve mem_size new_size = mem_size) ∧
    new_size ≤ vec_do_reserve mem_size new_size := by
  unfold vec_do_reserve
  dsimp only
  rw [Nat.mod_eq_of_lt hnew, Nat.mod_eq_of_lt hmem]
  by_cases h : new_size > mem_size ∨ 2 * new_size < mem_size
  · have hc : (decide (new_size > mem_size) || decide (new_size * 2 < mem_size)) = true := by
      rcases h with h | h
      · simp [h]
      · have : new_size * 2 < mem_size := by omega
        simp [this]
    rw [if_pos hc]
    refine ⟨fun _ => ?_, fun h2 => absurd h h2, ?_⟩
    · split <;> omega
    · split <;> omega
  · have hc : ¬ (decide (new_size > mem_size) || decide (new_size * 2 < mem_size)) = true := by
      simp only [Bool.or_eq_true, decide_eq_true_eq]
      omega
    rw [if_neg hc]
    refine ⟨fun h2 => absurd h2 h, fun _ => rfl, ?_⟩
    omega

/-- C14 at an allocation of 16 bytes: 17 and 3 both lead to 32, 40 leads to 40
and 10 leaves 16. -/
theorem C14_vec_do_reserve_witness :
    vec_do_reserve 16 17 = 32 ∧ vec_do_reserve 16 3 = 32 ∧ vec_do_reserve 16 40 = 40 ∧
    vec_do_reserve 16 10 = 16 :=
  ⟨(C14_vec_do_reserve 16 17 (by decide) (by decide)).1 (Or.inl (by decide)),
   (C14_vec_do_reserve 16 3 (by decide) (by decide)).1 (Or.inr (by decide)),
   (C14_vec_do_reserve 16 40 (by decide) (by decide)).1 (Or.inl (by decide)),
   (C14_vec_do_reserve 16 10 (by decide) (by decide)).2.1 (by decide)⟩

/-! ## The section content model: move -/

/-- C15: after `supersect_move (dest, src)`, a transfer into another section
(`dest` and `src` are distinct), the section `dest` has exactly the state `src`
had before the call (content, relocs, new_relocs, name, flags, alignment), the
content, relocs and new_relocs of `src` are empty while its name, flags and
alignment are unchanged, and every other section is unchanged. -/
theorem C15_supersect_move (st : ss_store) (dest_ss src_ss : Nat) (hne : dest_ss ≠ src_ss) :
    (supersect_move st dest_ss src_ss) dest_ss = st src_ss ∧
    ((supersect_move st dest_ss src_ss) src_ss).contents = [] ∧
    ((supersect_move st dest_ss src_ss) src_ss).relocs = [] ∧
    ((supersect_move st dest_ss src_ss) src_ss).new_relocs = [] ∧
    ((supersect_move st dest_ss src_ss) src_ss).name = (st src_ss).name ∧
    ((supersect_move st dest_ss src_ss) src_ss).flags = (st src_ss).flags ∧
    ((supersect_move st dest_ss src_ss) src_ss).alignment = (st src_ss).alignment ∧
    (∀ p, p ≠ dest_ss → p ≠ src_ss → (supersect_move st dest_ss src_ss) p = st p) := by
  have hne2 : ¬ src_ss = dest_ss := fun h => hne h.symm
  unfold supersect_move
  refine ⟨?_, ?_, ?_, ?_, ?_, ?_, ?_, ?_⟩
  · simp [hne]
  · simp
  · simp
  · simp
  · simp [hne2]
  · simp [hne2]
  · simp [hne2]
  · intro p h1 h2
    simp [h1, h2]

/-- C15 at `store_by_pointer`, moving section 1 into section 0. -/
theorem C15_supersect_move_witness :
    (supersect_move store_by_pointer 0 1) 0 = store_by_pointer 1 ∧
    ((supersect_move store_by_pointer 0 1) 1).contents = [] :=
  ⟨(C15_supersect_move store_by_pointer 0 1 (by decide)).1,
   (C15_supersect_move store_by_pointer 0 1 (by decide)).2.1⟩

/-! ## The section content model: growth -/

theorem ffs_from_two_pow (fuel i e : Nat) (h1 : i ≤ e) (h2 : e < i + fuel) :
    ffs_from fuel i (2 ^ e) = e + 1 := by
  induction fuel generalizing i with
  | zero => omega
  | succ fuel ih =>
    unfold ffs_from
    rw [Nat.testBit_two_pow]
    by_cases h : e = i
    · simp [h]
    · simp only [h, decide_False, Bool.false_eq_true, if_false]
      exact ih (i + 1) (by omega) (by omega)

theorem ffs_two_pow (e : Nat) (h : e < 32) : ffs (2 ^ e) = e + 1 :=
  ffs_from_two_pow 32 0 e (Nat.zero_le _) (by omega)

theorem align_dvd (x n : Nat) : n ∣ align x n :=
  Dvd.intro_left _ rfl

theorem align_bounds (x n : Nat) (hn : 0 < n) : x ≤ align x n ∧ align x n < x + n := by
  unfold align
  have h1 := Nat.div_add_mod (x + n - 1) n
  have h2 := Nat.mod_lt (x + n - 1) hn
  rw [Nat.mul_comm] at h1
  generalize (x + n - 1) / n * n = m at h1
  omega

theorem sect_do_grow_fst (ss : supersect) (n size alignment : Nat) :
    (sect_do_grow ss n size alignment).1 =
      { ss with
        alignment := if ss.alignment < (ffs alignment : Int) - 1 then (ffs alignment : Int) - 1
          else ss.alignment
        contents := ss.contents ++ List.replicate
          ((align ss.contents.length alignment - ss.contents.length + n * size) % vma_mod) 0 } := by
  unfold sect_do_grow vec_grow
  by_cases h : ss.alignment < (ffs alignment : Int) - 1 <;> simp [h]

theorem sect_do_grow_snd (ss : supersect) (n size alignment : Nat) (ha : 0 < alignment) :
    (sect_do_grow ss n size alignment).2 = align ss.contents.length alignment := by
  have hb := (align_bounds ss.contents.length alignment ha).1
  unfold sect_do_grow vec_grow
  by_cases h : ss.alignment < (ffs alignment : Int) - 1 <;> simp [h] <;> omega

theorem sect_do_grow_alignment (ss : supersect) (n size e : Nat) (he : e < 31) :
    (sect_do_grow ss n size (2 ^ e)).1.alignment = max ss.alignment (e : Int) := by
  rw [sect_do_grow_fst, ffs_two_pow e (by omega)]
  simp only []
  by_cases h : ss.alignment < ((e + 1 : Nat) : Int) - 1
  · rw [if_pos h]
    omega
  · rw [if_neg h]
    omega

/-- C13: for every sequence of `sect_do_grow` calls on a section, each with a
power-of-two alignment `2^e` that is an `int`, the offset returned by each call
is a multiple of the alignment `2^e` requested in that call, and after the
sequence the recorded alignment exponent of the section is the maximum of its
initial value and all the exponents; it is never below the initial value. -/
theorem C13_sect_do_grow_alignment (ss : supersect) (calls : List (Nat × Nat × Nat))
    (he : ∀ c ∈ calls, c.2.2 < 31) :
    List.Forall₂ (fun c off => 2 ^ c.2.2 ∣ off) calls
      (sect_do_grow_calls ss (calls.map (fun c => (c.1, c.2.1, 2 ^ c.2.2)))).2 ∧
    (sect_do_grow_calls ss (calls.map (fun c => (c.1, c.2.1, 2 ^ c.2.2)))).1.alignment =
      calls.foldl (fun m c => max m (c.2.2 : Int)) ss.alignment ∧
    ss.alignment ≤
      (sect_do_grow_calls ss (calls.map (fun c => (c.1, c.2.1, 2 ^ c.2.2)))).1.alignment := by
  induction calls generalizing ss with
  | nil => simp [sect_do_grow_calls]
  | cons c rest ih =>
    obtain ⟨n, size, e⟩ := c
    have he0 : e < 31 := he (n, size, e) (List.mem_cons_self _ _)
    have ih2 := ih (sect_do_grow ss n size (2 ^ e)).1
      (fun c hc => he c (List.mem_cons_of_mem _ hc))
    have hal := sect_do_grow_alignment ss n size e he0
    have hoff := sect_do_grow_snd ss n size (2 ^ e) (Nat.pos_pow_of_pos _ (by decide))
    simp only [List.map_cons, sect_do_grow_calls, List.foldl_cons]
    refine ⟨List.Forall₂.cons ?_ ih2.1, ?_, ?_⟩
    · rw [hoff]
      exact align_dvd _ _
    · rw [ih2.2.1, hal]
    · have := ih2.2.2
      rw [hal] at this
      omega

/-- C13 at three calls on `three_bytes_ss` with alignments 4, 1 and 16: the
offsets returned are 4, 8 and 16 and the recorded exponent is 4. -/
theorem C13_sect_do_grow_alignment_witness :
    (sect_do_grow_calls three_bytes_ss [(1, 4, 4), (3, 1, 1), (2, 8, 16)]).2 = [4, 8, 16] ∧
    (sect_do_grow_calls three_bytes_ss [(1, 4, 4), (3, 1, 1), (2, 8, 16)]).1.alignment = 4 ∧
    List.Forall₂ (fun (c : Nat × Nat × Nat) off => 2 ^ c.2.2 ∣ off)
      [(1, 4, 2), (3, 1, 0), (2, 8, 4)]
      (sect_do_grow_calls three_bytes_ss
        ([(1, 4, 2), (3, 1, 0), (2, 8, 4)].map (fun c => (c.1, c.2.1, 2 ^ c.2.2)))).2 :=
  ⟨by decide, by decide,
   (C13_sect_do_grow_alignment three_bytes_ss [(1, 4, 2), (3, 1, 0), (2, 8, 4)]
      (by decide)).1⟩

/-- C18 as stated fails: with `n = 2^63` and `size = 2` the product `n * size`
wraps to 0 in `size_t`; growing the three bytes of `three_bytes_ss` with
alignment 4 leaves a content of 4 bytes, not of `align (3, 4) + n * size`
bytes. -/
theorem C18_counterexample :
    (sect_do_grow three_bytes_ss (2 ^ 63) 2 4).1.contents.length = 4 ∧
    align three_bytes_ss.contents.length 4 + 2 ^ 63 * 2 ≠ 4 := by
  decide

/-- C18 (amended): `sect_do_grow (ss, n, size, alignment)` with a power-of-two
alignment, when `padding + n * size` does not overflow a `size_t`: the new
content length is `align (old length, alignment) + n * size`, the region
returned starts at offset `align (old length, alignment)`, after a padding
smaller than the alignment, every byte from the old length to the new length is
zero, all bytes below the old length are unchanged, and the relocation lists
are unchanged. -/
theorem C18_sect_do_grow_frame (ss : supersect) (n size e : Nat)
    (hfit : align ss.contents.length (2 ^ e) - ss.contents.length + n * size < vma_mod) :
    (sect_do_grow ss n size (2 ^ e)).1.contents.length =
      align ss.contents.length (2 ^ e) + n * size ∧
    (sect_do_grow ss n size (2 ^ e)).2 = align ss.contents.length (2 ^ e) ∧
    ss.contents.length ≤ (sect_do_grow ss n size (2 ^ e)).2 ∧
    (sect_do_grow ss n size (2 ^ e)).2 - ss.contents.length < 2 ^ e ∧
    (∀ i, ss.contents.length ≤ i → i < (sect_do_grow ss n size (2 ^ e)).1.contents.length →
      (sect_do_grow ss n size (2 ^ e)).1.contents[i]? = some 0) ∧
    (∀ i, i < ss.contents.length →
      (sect_do_grow ss n size (2 ^ e)).1.contents[i]? = ss.contents[i]?) ∧
    (sect_do_grow ss n size (2 ^ e)).1.relocs = ss.relocs ∧
    (sect_do_grow ss n size (2 ^ e)).1.new_relocs = ss.new_relocs := by
  have hpos : 0 < 2 ^ e := Nat.pos_pow_of_pos _ (by decide)
  have hb := align_bounds ss.contents.length (2 ^ e) hpos
  rw [sect_do_grow_snd ss n size (2 ^ e) hpos, sect_do_grow_fst, Nat.mod_eq_of_lt hfit]
  refine ⟨?_, rfl, hb.1, by omega, ?_, ?_, rfl, rfl⟩
  · simp only [List.length_append, List.length_replicate]
    omega
  · intro i h1 h2
    simp only [List.length_append, List.length_replicate] at h2
    rw [List.getElem?_append_right h1, List.getElem?_replicate]
    rw [if_pos (by omega)]
  · intro i h1
    rw [List.getElem?_append_left h1]

/-- C18 (amended) at `three_bytes_ss`, two elements of 4 bytes aligned to 4: the
content becomes 12 bytes and the region starts at offset 4. -/
theorem C18_sect_do_grow_frame_witness :
    (sect_do_grow three_bytes_ss 2 4 (2 ^ 2)).1.contents.length =
      align three_bytes_ss.contents.length (2 ^ 2) + 2 * 4 ∧
    (sect_do_grow three_bytes_ss 2 4 (2 ^ 2)).2 = 4 ∧
    (sect_do_grow three_bytes_ss 2 4 (2 ^ 2)).1.contents = [1, 2, 3, 0, 0, 0, 0, 0, 0, 0, 0, 0] :=
  ⟨(C18_sect_do_grow_frame three_bytes_ss 2 4 2 (by decide)).1, by decide, by decide⟩

/-! ## The section content model: copy -/

theorem mod_relocs_eq (dest_relocs src_relocs : List arelent) (start stop mod : Nat) :
    mod_relocs dest_relocs src_relocs start stop mod =
      dest_relocs ++
        (src_relocs.filter
          (fun r => decide (r.address ≥ start) && decide (r.address < stop))).map
          (fun r => { r with address := (r.address + mod) % vma_mod }) := by
  induction src_relocs generalizing dest_relocs with
  | nil => simp [mod_relocs]
  | cons r rest ih =>
    unfold mod_relocs
    by_cases h : (decide (r.address ≥ start) && decide (r.address < stop)) = true
    · rw [if_pos h, ih]
      simp [List.filter_cons, h]
    · rw [if_neg h, ih]
      simp [List.filter_cons, h]

/-- The relocations `mod_relocs` appends for a copy of `[s, s + n)` to offset
`d`, when neither range wraps: the entries with address in the range, shifted
by `d - s`. -/
theorem mod_relocs_copy (dest_relocs src_relocs : List arelent) (d s n : Nat)
    (hd : d + n < vma_mod) (hs : s + n < vma_mod) :
    mod_relocs dest_relocs src_relocs s ((s + n) % vma_mod) ((d + vma_mod - s) % vma_mod) =
      dest_relocs ++
        (src_relocs.filter (fun r => decide (s ≤ r.address ∧ r.address < s + n))).map
          (fun r => { r with address := r.address + d - s }) := by
  rw [mod_relocs_eq, Nat.mod_eq_of_lt hs]
  congr 1
  have hf : (fun r : arelent => decide (r.address ≥ s) && decide (r.address < s + n)) =
      (fun r : arelent => decide (s ≤ r.address ∧ r.address < s + n)) := by
    funext r
    simp
  rw [hf]
  apply List.map_congr_left
  intro r hr
  have hr2 := (List.mem_filter.mp hr).2
  simp only [decide_eq_true_eq] at hr2
  have : (r.address + (d + vma_mod - s) % vma_mod) % vma_mod = r.address + d - s := by
    unfold vma_mod at *
    omega
  rw [this]

theorem memcpy_length (dest : List Nat) (d : Nat) (src : List Nat) (s n : Nat)
    (hd : d + n ≤ dest.length) (hs : s + n ≤ src.length) :
    (memcpy dest d src s n).length = dest.length := by
  unfold memcpy
  simp only [List.length_append, List.length_take, List.length_drop]
  omega

theorem memcpy_getElem? (dest : List Nat) (d : Nat) (src : List Nat) (s n i : Nat)
    (hd : d + n ≤ dest.length) (hs : s + n ≤ src.length) (hi : i < n) :
    (memcpy dest d src s n)[d + i]? = src[s + i]? := by
  unfold memcpy
  have h1 : (dest.take d).length = d := by
    rw [List.length_take]
    omega
  rw [List.append_assoc, List.getElem?_append_right (by omega), h1]
  have h2 : d + i - d = i := by omega
  rw [h2]
  have h3 : i < ((src.drop s).take n).length := by
    rw [List.length_take, List.length_drop]
    omega
  rw [List.getElem?_append_left h3, List.getElem?_take_of_lt hi, List.getElem?_drop]

/-- The result of `sect_do_copy` when both ranges lie inside their buffer and
the sizes are `size_t` values. -/
theorem sect_do_copy_eq (dest_ss src_ss : supersect) (d s n : Nat)
    (hd : d + n ≤ dest_ss.contents.length) (hs : s + n ≤ src_ss.contents.length)
    (hdl : dest_ss.contents.length < vma_mod) (hsl : src_ss.contents.length < vma_mod) :
    sect_do_copy dest_ss d src_ss s n =
      some ({ dest_ss with
          contents := memcpy dest_ss.contents d src_ss.contents s n
          relocs := dest_ss.relocs ++
            (src_ss.relocs.filter (fun r => decide (s ≤ r.address ∧ r.address < s + n))).map
              (fun r => { r with address := r.address + d - s })
          new_relocs := dest_ss.new_relocs ++
            (src_ss.new_relocs.filter (fun r => decide (s ≤ r.address ∧ r.address < s + n))).map
              (fun r => { r with address := r.address + d - s }) },
        src_ss) := by
  unfold sect_do_copy
  rw [if_pos ⟨hd, hs⟩]
  simp only []
  rw [mod_relocs_copy _ _ d s n (by omega) (by omega),
    mod_relocs_copy _ _ d s n (by omega) (by omega)]

/-- C12: after `sect_do_copy (dest, d, src, s, n)` with `dest` and `src`
distinct sections and both ranges inside their content: the bytes `[d, d + n)`
of `dest` equal the bytes `[s, s + n)` of `src`; `dest.relocs` is its previous
value followed, in source order, by one copy of each entry of `src.relocs`
whose address `k` satisfies `s <= k < s + n`, with address `k + (d - s)` and
the same symbol, addend and descriptor; likewise `dest.new_relocs` from
`src.new_relocs`; no other relocation is copied, and `src` is unchanged. -/
theorem C12_sect_do_copy (dest_ss src_ss : supersect) (d s n : Nat)
    (hd : d + n ≤ dest_ss.contents.length) (hs : s + n ≤ src_ss.contents.length)
    (hdl : dest_ss.contents.length < vma_mod) (hsl : src_ss.contents.length < vma_mod) :
    ∃ dest_after, sect_do_copy dest_ss d src_ss s n = some (dest_after, src_ss) ∧
      dest_after.contents.length = dest_ss.contents.length ∧
      (∀ i, i < n → dest_after.contents[d + i]? = src_ss.contents[s + i]?) ∧
      dest_after.relocs = dest_ss.relocs ++
        (src_ss.relocs.filter (fun r => decide (s ≤ r.address ∧ r.address < s + n))).map
          (fun r => { sym := r.sym, address := r.address + d - s, addend := r.addend,
                      howto := r.howto }) ∧
      dest_after.new_relocs = dest_ss.new_relocs ++
        (src_ss.new_relocs.filter (fun r => decide (s ≤ r.address ∧ r.address < s + n))).map
          (fun r => { sym := r.sym, address := r.address + d - s, addend := r.addend,
                      howto := r.howto }) :=
  ⟨_, sect_do_copy_eq dest_ss src_ss d s n hd hs hdl hsl,
    memcpy_length _ _ _ _ _ hd hs,
    fun i hi => memcpy_getElem? _ _ _ _ _ i hd hs hi, rfl, rfl⟩

/-- C12 at `copy_dest` and `copy_src`, copying the bytes `[1, 4)` to offset 4:
the relocation at 1 arrives at 4 and the new relocation at 2 at 5; the
relocation at 4 is not copied. -/
theorem C12_sect_do_copy_witness :
    (sect_do_copy copy_dest 4 copy_src 1 3).map
        (fun r => (r.1.contents, r.1.relocs.map (fun x => x.address),
          r.1.new_relocs.map (fun x => x.address))) =
      some ([0, 0, 0, 0, 11, 12, 13, 0], [0, 4], [5]) ∧
    ∃ dest_after, sect_do_copy copy_dest 4 copy_src 1 3 = some (dest_after, copy_src) ∧
      dest_after.contents.length = copy_dest.contents.length :=
  ⟨by decide,
   match C12_sect_do_copy copy_dest copy_src 4 1 3 (by decide) (by decide) (by decide)
      (by decide) with
   | ⟨r, h1, h2, _⟩ => ⟨r, h1, h2⟩⟩

/-! ## The invariant on relocation addresses -/

/-- C19: the predicate "every entry of `relocs` and `new_relocs` has its
address inside the content" is preserved by `sect_do_grow`, by
`supersect_move` (for both sections involved) and by `sect_do_copy` with both
ranges inside their content (for both sections involved); each relocation the
copy adds has its address in `[d, d + n)`. -/
theorem C19_relocs_in_range_preserved :
    (∀ (ss : supersect) (n size alignment : Nat), spec_relocs_in_range ss →
      spec_relocs_in_range (sect_do_grow ss n size alignment).1) ∧
    (∀ (st : ss_store) (dest_ss src_ss : Nat),
      spec_relocs_in_range (st dest_ss) → spec_relocs_in_range (st src_ss) →
      spec_relocs_in_range ((supersect_move st dest_ss src_ss) dest_ss) ∧
      spec_relocs_in_range ((supersect_move st dest_ss src_ss) src_ss)) ∧
    (∀ (dest_ss src_ss : supersect) (d s n : Nat),
      d + n ≤ dest_ss.contents.length → s + n ≤ src_ss.contents.length →
      dest_ss.contents.length < vma_mod → src_ss.contents.length < vma_mod →
      spec_relocs_in_range dest_ss → spec_relocs_in_range src_ss →
      ∃ dest_after src_after added added_new,
        sect_do_copy dest_ss d src_ss s n = some (dest_after, src_after) ∧
        spec_relocs_in_range dest_after ∧ spec_relocs_in_range src_after ∧
        dest_after.relocs = dest_ss.relocs ++ added ∧
        dest_after.new_relocs = dest_ss.new_relocs ++ added_new ∧
        (∀ r ∈ added, d ≤ r.address ∧ r.address < d + n) ∧
        (∀ r ∈ added_new, d ≤ r.address ∧ r.address < d + n)) := by
  refine ⟨?_, ?_, ?_⟩
  · intro ss n size alignment h
    rw [sect_do_grow_fst]
    unfold spec_relocs_in_range at *
    simp only [List.length_append, List.length_replicate]
    exact ⟨fun r hr => Nat.lt_of_lt_of_le (h.1 r hr) (Nat.le_add_right _ _),
      fun r hr => Nat.lt_of_lt_of_le (h.2 r hr) (Nat.le_add_right _ _)⟩
  · intro st dest_ss src_ss _ hsrc
    unfold supersect_move spec_relocs_in_range
    by_cases hne : dest_ss = src_ss
    · subst hne
      simp
    · simp only [if_pos rfl, hne, if_false]
      refine ⟨hsrc, ?_⟩
      simp
  · intro dest_ss src_ss d s n hd hs hdl hsl hdest hsrc
    have hadd : ∀ l : List arelent,
        ∀ r ∈ (l.filter (fun r => decide (s ≤ r.address ∧ r.address < s + n))).map
          (fun r => ({ r with address := r.address + d - s } : arelent)),
        d ≤ r.address ∧ r.address < d + n := by
      intro l r hr
      obtain ⟨x, hx, rfl⟩ := List.mem_map.mp hr
      have hx2 := (List.mem_filter.mp hx).2
      simp only [decide_eq_true_eq] at hx2
      simp only []
      omega
    refine ⟨_, _, _, _, sect_do_copy_eq dest_ss src_ss d s n hd hs hdl hsl, ?_, hsrc,
      rfl, rfl, hadd _, hadd _⟩
    unfold spec_relocs_in_range
    simp only [memcpy_length _ _ _ _ _ hd hs]
    constructor
    · intro r hr
      rcases List.mem_append.mp hr with h | h
      · exact hdest.1 r h
      · have := hadd _ r h
        omega
    · intro r hr
      rcases List.mem_append.mp hr with h | h
      · exact hdest.2 r h
      · have := hadd _ r h
        omega

/-- C19 at `copy_dest` and `copy_src`, whose relocations lie inside their
content: the invariant holds after growing, after moving and after copying the
bytes `[1, 4)` to offset 4. -/
theorem C19_relocs_in_range_preserved_witness :
    spec_relocs_in_range (sect_do_grow copy_src 2 4 8).1 ∧
    spec_relocs_in_range
      ((supersect_move (fun p => if p = 0 then copy_dest else copy_src) 0 1) 0) ∧
    ∃ dest_after src_after, sect_do_copy copy_dest 4 copy_src 1 3 =
      some (dest_after, src_after) ∧ spec_relocs_in_range dest_after :=
  have hsrc : spec_relocs_in_range copy_src := ⟨by decide, by decide⟩
  have hdest : spec_relocs_in_range copy_dest := ⟨by decide, by decide⟩
  ⟨C19_relocs_in_range_preserved.1 copy_src 2 4 8 hsrc,
   (C19_relocs_in_range_preserved.2.1 (fun p => if p = 0 then copy_dest else copy_src) 0 1
      hdest hsrc).1,
   match C19_relocs_in_range_preserved.2.2 copy_dest copy_src 4 1 3 (by decide) (by decide)
      (by decide) (by decide) hdest hsrc with
   | ⟨a, b, _, _, h1, h2, _⟩ => ⟨a, b, h1, h2⟩⟩

/-! ## Export tables: the size check -/

/-- The function `get_export_syms` aborts when a section of the export-table
kind fails the size check. -/
theorem get_export_syms_loop_abort (sbfd : superbfd) (l : List asection) (sect_id : Nat)
    (sect : asection) (hmem : sect ∈ l)
    (hname : starts_with sect.name "__ksymtab" = true)
    (hsuf : ends_with sect.name "_strings" = false)
    (hsize : sect.contents.length * 2 ≠ sect.relocs.length * sizeof_kernel_symbol) :
    get_export_syms_loop sbfd sect_id l = none := by
  induction l generalizing sect_id with
  | nil => cases hmem
  | cons a rest ih =>
    unfold get_export_syms_loop
    by_cases hskip : (!starts_with a.name "__ksymtab" || ends_with a.name "_strings") = true
    · rw [if_pos hskip]
      rcases List.mem_cons.mp hmem with rfl | h
      · simp [hname, hsuf] at hskip
      · exact ih (sect_id + 1) h
    · rw [if_neg hskip]
      by_cases hchk : (fetch_supersect sbfd a).contents.length * 2 ≠
          (fetch_supersect sbfd a).relocs.length * sizeof_kernel_symbol
      · rw [if_pos hchk]
      · rw [if_neg hchk]
        rcases List.mem_cons.mp hmem with rfl | h
        · exact absurd hsize hchk
        · rw [ih (sect_id + 1) h]
          cases get_export_syms_records (fetch_supersect sbfd a) sect_id a
            (record_offsets (fetch_supersect sbfd a).contents.length) <;> rfl

/-- C17 (evaluation at the failing input, and the part that holds):
`get_export_syms` aborts whenever a section whose name starts with `__ksymtab`
and does not end with `_strings` fails the check `content length * 2 =
relocation count * record size`. The section `half_record_sect`, of 8 bytes
with one relocation, passes the check; it contributes one export record,
not `1 / 2 = 0`, and that record, at offset 0 with 16 bytes, does not lie
inside the 8 bytes of content. -/
theorem C17_half_record_passes_check :
    (∀ (sbfd : superbfd) (sect : asection), sect ∈ sbfd.sections →
      starts_with sect.name "__ksymtab" = true → ends_with sect.name "_strings" = false →
      sect.contents.length * 2 ≠ sect.relocs.length * sizeof_kernel_symbol →
      get_export_syms sbfd = none) ∧
    starts_with half_record_sect.name "__ksymtab" = true ∧
    ends_with half_record_sect.name "_strings" = false ∧
    half_record_sect.contents.length * 2 =
      half_record_sect.relocs.length * sizeof_kernel_symbol ∧
    get_export_syms half_record_obj = some [⟨"a", 0, half_record_sect⟩] ∧
    half_record_sect.relocs.length / 2 = 0 ∧
    record_offsets half_record_sect.contents.length = [0] ∧
    ¬ (0 + sizeof_kernel_symbol ≤ half_record_sect.contents.length) := by
  refine ⟨?_, by decide, by decide, by decide, by decide, by decide, by decide, by decide⟩
  intro sbfd sect hmem hname hsuf hsize
  exact get_export_syms_loop_abort sbfd sbfd.sections 0 sect hmem hname hsuf hsize

/-! ## Relocation-set equality: positions read in string-literal sections -/

/-- C20 (evaluation at the failing input): for the symbol `str_symbol_at_two`,
at offset 2 of a string-literal section of 3 bytes, and the decoded offset 2 on
both sides, the string branch of `relocs_equal` is taken (the name starts with
`.rodata.str` and both offsets are below the content length), yet the position
read, `sym.value + offset = 4`, lies outside the 3 bytes of content. -/
theorem C20_string_read_out_of_bounds :
    starts_with str_symbol_at_two.sect.name ".rodata.str" = true ∧
    2 < str_symbol_at_two.sect.contents.length ∧
    (str_symbol_at_two.value + 2) % vma_mod = 4 ∧
    ¬ ((str_symbol_at_two.value + 2) % vma_mod < str_symbol_at_two.sect.contents.length) ∧
    relocs_equal_at str_symbol_at_two str_symbol_at_two 2 2 =
      decide (c_string str_symbol_at_two.sect.contents 4 =
        c_string str_symbol_at_two.sect.contents 4) := by
  decide

end Ksplice
